import Mathlib

/-! # QuickLogo: variant generation, source catalog and probing

A shallow embedding of `src/services/logoService.js` (the interactive path) and
`logo-downloader-clean.js` (the batch path).

* A JavaScript string is the list of its characters.
* `String.prototype.toLowerCase` belongs to the host, not to the repository: every
  definition that calls it takes it as the argument `toLowerCase`, and every theorem
  holds for an arbitrary such function.  `asciiLower` is the instance used on concrete
  ASCII inputs.
* The network and the file system are oracles: a function from the URL (or path) to the
  outcome of the request.  Exceptions are values of `Except`.
-/

set_option autoImplicit false

namespace QuickLogo

/-! ## Strings -/

/-- A JavaScript string. -/
abbrev JSString := List Char

deriving instance DecidableEq for Except

/-- The characters that `String.prototype.trim` strips and that `\s` matches in a regular
expression: ECMAScript WhiteSpace and LineTerminator. -/
def isWhiteSpace (c : Char) : Bool :=
  [0x09, 0x0A, 0x0B, 0x0C, 0x0D, 0x20, 0xA0, 0x1680, 0x2028, 0x2029, 0x202F, 0x205F,
    0x3000, 0xFEFF].contains c.toNat
  || (0x2000 ≤ c.toNat && c.toNat ≤ 0x200A)

/-- `s.trim()`. -/
def trim (s : JSString) : JSString :=
  ((s.dropWhile isWhiteSpace).reverse.dropWhile isWhiteSpace).reverse

/-- A pattern letter `p` (given in lower case) under the `i` flag matches `p` and its
upper-case form, and nothing else. -/
def letterI (p c : Char) : Bool :=
  c == p || c == p.toUpper

/-- An attempt to match `ab$` (flag `i`) at the start of the remaining input: the input
left must be exactly two characters, matching `a` and `b`. -/
def matchAtEnd (a b : Char) : JSString → Bool
  | [x, y] => letterI a x && letterI b y
  | _ => false

/-- `s.replace(/ab$/i, '')`: scan from the left for the first position where `ab$`
matches and delete the match; without a match the string is unchanged. -/
def replaceTrailingI (a b : Char) : JSString → JSString
  | [] => []
  | c :: rest => if matchAtEnd a b (c :: rest) then [] else c :: replaceTrailingI a b rest

/-- The global replacement of the one-character pattern `c` (a hyphen in the source) by
the empty string: every occurrence is deleted. -/
def removeChar (c : Char) (s : JSString) : JSString :=
  s.filter (fun x => x != c)

/-- `s.replace(/\s+/g, r)`: every maximal run of white space is replaced by `r`.  The flag
says whether the previous character belonged to a run that is already replaced. -/
def replaceRuns (r : JSString) : Bool → JSString → JSString
  | _, [] => []
  | inRun, c :: rest =>
    if isWhiteSpace c then
      if inRun then replaceRuns r true rest else r ++ replaceRuns r true rest
    else c :: replaceRuns r false rest

/-- `url.includes(pat)`: some position of `s` starts with `pat`. -/
def includes (s pat : JSString) : Bool :=
  s.tails.any (fun t => pat.isPrefixOf t)

/-- Lower-casing of the letters `A`-`Z`; `toLowerCase` on ASCII strings. -/
def asciiLower (s : JSString) : JSString :=
  s.map Char.toLower

/-! ## Variant generation -/

/-- Insertion into a `Set` kept in insertion order. -/
def setAdd {α : Type} [DecidableEq α] (s : List α) (x : α) : List α :=
  if x ∈ s then s else s ++ [x]

/-- `[...new Set(xs)]`: the elements of `xs` in order of first insertion. -/
def newSet {α : Type} [DecidableEq α] (xs : List α) : List α :=
  xs.foldl setAdd []

/-- `arr.indexOf(v)` for an array that holds `v`: the position of its first occurrence.
(For a `v` that is absent the value is the length of `arr`, where JavaScript answers `-1`;
neither is a position of `arr`.) -/
def firstIndex {α : Type} [DecidableEq α] (arr : List α) (v : α) : Nat :=
  arr.indexOf v

/-- The array `variations` of `generateServiceVariations`, before duplicates are removed. -/
def variations (toLowerCase : JSString → JSString) (service : JSString) : List JSString :=
  [ service,
    replaceTrailingI 'j' 's' service,
    replaceTrailingI 'd' 'b' service,
    toLowerCase service,
    removeChar '-' service,
    replaceRuns [] false service,
    replaceRuns ['-'] false service ]

/-- `generateServiceVariations(service)`. -/
def generateServiceVariations (toLowerCase : JSString → JSString) (service : JSString) :
    List JSString :=
  newSet (variations toLowerCase service)

/-- `arr.filter((v, i, arr) => arr.indexOf(v) === i)`. -/
def filterFirstIndex {α : Type} [DecidableEq α] (arr : List α) : List α :=
  (arr.enum.filter (fun p => firstIndex arr p.2 == p.1)).map Prod.snd

/-- The array that `downloadLogos` filters into `serviceVariations`. -/
def batchVariations (toLowerCase : JSString → JSString) (service : JSString) :
    List JSString :=
  [ service,
    replaceTrailingI 'j' 's' service,
    replaceTrailingI 'd' 'b' service,
    toLowerCase service,
    removeChar '-' service ]

/-- The constant `serviceVariations` of `downloadLogos`. -/
def serviceVariations (toLowerCase : JSString → JSString) (service : JSString) :
    List JSString :=
  filterFirstIndex (batchVariations toLowerCase service)

/-! ## Source catalog -/

namespace LOGO_SOURCES

/-- Base URL of the Simple Icons CDN. -/
def SIMPLE_ICONS : JSString := "https://cdn.jsdelivr.net/npm/simple-icons@latest/icons/".toList

/-- Base URL of the Simple Icons repository. -/
def SIMPLE_ICONS_RAW : JSString :=
  "https://raw.githubusercontent.com/simple-icons/simple-icons/develop/icons/".toList

/-- Base URL of the DevIcons repository. -/
def DEVICONS_ORIGINAL : JSString :=
  "https://raw.githubusercontent.com/devicons/devicon/master/icons/".toList

/-- Base URL of the Iconify `logos` collection. -/
def ICONIFY_LOGOS : JSString := "https://api.iconify.design/logos:".toList

/-- Base URL of the Iconify `simple-icons` collection. -/
def ICONIFY_SIMPLE : JSString := "https://api.iconify.design/simple-icons:".toList

/-- Base URL of the gilbarbara logos repository. -/
def LOGOS_COLLECTION : JSString :=
  "https://raw.githubusercontent.com/gilbarbara/logos/master/logos/".toList

/-- Base URL of the Icons8 colour icons. -/
def ICONS8_COLOR : JSString := "https://img.icons8.com/color/512/".toList

/-- Base URL of the Icons8 fluency icons. -/
def ICONS8_FLUENCY : JSString := "https://img.icons8.com/fluency/512/".toList

/-- Base URL of Clearbit. -/
def CLEARBIT : JSString := "https://logo.clearbit.com/".toList

end LOGO_SOURCES

/-- An entry of the array returned by `generateLogoUrls`. -/
structure LogoData where
  url : JSString
  type : JSString
  source : JSString
  deriving DecidableEq, Repr

/-- `generateLogoUrls(variant)`. -/
def generateLogoUrls (variant : JSString) : List LogoData :=
  [ { url := LOGO_SOURCES.SIMPLE_ICONS ++ variant ++ ".svg".toList,
      type := "svg".toList, source := "Simple Icons (CDN)".toList },
    { url := LOGO_SOURCES.SIMPLE_ICONS_RAW ++ variant ++ ".svg".toList,
      type := "svg".toList, source := "Simple Icons (Raw)".toList },
    { url := LOGO_SOURCES.DEVICONS_ORIGINAL ++ variant ++ "/".toList ++ variant
        ++ "-original.svg".toList,
      type := "svg".toList, source := "DevIcons Original".toList },
    { url := LOGO_SOURCES.DEVICONS_ORIGINAL ++ variant ++ "/".toList ++ variant
        ++ "-plain.svg".toList,
      type := "svg".toList, source := "DevIcons Plain".toList },
    { url := LOGO_SOURCES.ICONIFY_LOGOS ++ variant ++ ".svg".toList,
      type := "svg".toList, source := "Iconify Logos".toList },
    { url := LOGO_SOURCES.ICONIFY_SIMPLE ++ variant ++ ".svg".toList,
      type := "svg".toList, source := "Iconify Simple".toList },
    { url := LOGO_SOURCES.LOGOS_COLLECTION ++ variant ++ ".svg".toList,
      type := "svg".toList, source := "Logos Collection".toList },
    { url := LOGO_SOURCES.ICONS8_COLOR ++ variant ++ ".png".toList,
      type := "png".toList, source := "Icons8 Color".toList },
    { url := LOGO_SOURCES.ICONS8_FLUENCY ++ variant ++ ".png".toList,
      type := "png".toList, source := "Icons8 Fluency".toList },
    { url := LOGO_SOURCES.CLEARBIT ++ variant ++ ".com".toList,
      type := "png".toList, source := "Clearbit".toList } ]

/-- `getLogoExtension(url)`. -/
def getLogoExtension (url : JSString) : JSString :=
  if includes url ".svg".toList then "svg".toList
  else if includes url ".png".toList then "png".toList
  else if includes url ".jpg".toList || includes url ".jpeg".toList then "jpg".toList
  else "png".toList

/-! ## The interactive path -/

/-- The part of a `fetch` response that `checkLogoUrl` reads. -/
structure Response where
  ok : Bool
  status : Nat
  deriving DecidableEq, Repr

/-- The network seen by `fetch(url, ...)` with method `HEAD`: for each URL the promise
resolves to a response or rejects (network error, abort after the timeout) with a message. -/
abbrev Fetch := JSString → Except JSString Response

/-- `checkLogoUrl(url)`: the `catch` turns every rejection into `false`. -/
def checkLogoUrl (fetch : Fetch) (url : JSString) : Except JSString Bool :=
  match fetch url with
  | .ok response => .ok (response.ok && response.status == 200)
  | .error _ => .ok false

/-- The object built by the callback of `logoUrls.map` for a valid logo:
`{ ...logoData, variant, originalSearch: service }`. -/
structure ValidLogo where
  url : JSString
  type : JSString
  source : JSString
  variant : JSString
  originalSearch : JSString
  deriving DecidableEq, Repr

/-- An element of `foundLogos`: `{ ...logo, id, downloadUrl: logo.url }`. -/
structure LogoHit where
  url : JSString
  type : JSString
  source : JSString
  variant : JSString
  originalSearch : JSString
  id : JSString
  downloadUrl : JSString
  deriving DecidableEq, Repr

/-- The decimal numeral of a natural number, as a template literal prints it. -/
def decimal (n : Nat) : JSString :=
  Nat.toDigits 10 n

/-- The callback of `logoUrls.map`, run on `logoData`. -/
def check (fetch : Fetch) (variant service : JSString) (logoData : LogoData) :
    Except JSString (Option ValidLogo) :=
  match checkLogoUrl fetch logoData.url with
  | .ok isValid =>
    .ok (if isValid then
      some { url := logoData.url, type := logoData.type, source := logoData.source,
             variant := variant, originalSearch := service }
    else none)
  | .error e => .error e

/-- `await Promise.all(checks)`: the values in the order of `checks`, or a rejection of one
of them. -/
def promiseAll {α : Type} : List (Except JSString α) → Except JSString (List α)
  | [] => .ok []
  | .ok a :: rest =>
    match promiseAll rest with
    | .ok as => .ok (a :: as)
    | .error e => .error e
  | .error e :: _ => .error e

/-- The loop `for (const logo of validLogos)` of `searchLogos`. -/
def pushValid (service : JSString) (maxLogos : Nat) :
    List ValidLogo → List LogoHit → List LogoHit
  | [], foundLogos => foundLogos
  | logo :: rest, foundLogos =>
    if foundLogos.length < maxLogos then
      pushValid service maxLogos rest
        (foundLogos ++
          [{ url := logo.url, type := logo.type, source := logo.source,
             variant := logo.variant, originalSearch := logo.originalSearch,
             id := service ++ "-".toList ++ decimal (foundLogos.length + 1),
             downloadUrl := logo.url }])
    else pushValid service maxLogos rest foundLogos

/-- The loop `for (const variant of variations)` of `searchLogos`, from the state
`foundLogos`; `probed` lists the URLs handed to `fetch` so far.  All ten checks of a
variant are started before any is awaited. -/
def searchLoop (fetch : Fetch) (service : JSString) (maxLogos : Nat) :
    List JSString → List LogoHit → List JSString →
      Except JSString (List LogoHit) × List JSString
  | [], foundLogos, probed => (.ok foundLogos, probed)
  | variant :: rest, foundLogos, probed =>
    if foundLogos.length ≥ maxLogos then (.ok foundLogos, probed)
    else
      let logoUrls := generateLogoUrls variant
      let probed1 := probed ++ logoUrls.map (fun logoData => logoData.url)
      match promiseAll (logoUrls.map (check fetch variant service)) with
      | .error e => (.error e, probed1)
      | .ok results =>
        let validLogos := results.filterMap id
        searchLoop fetch service maxLogos rest
          (pushValid service maxLogos validLogos foundLogos) probed1

/-- `searchLogos(service, maxLogos)`: the returned array or the thrown message, and the
URLs probed. -/
def searchLogos (toLowerCase : JSString → JSString) (fetch : Fetch) (service : JSString)
    (maxLogos : Nat) : Except JSString (List LogoHit) × List JSString :=
  if service = [] ∨ trim service = [] then (.ok [], [])
  else
    match searchLoop fetch service maxLogos
        (generateServiceVariations toLowerCase (trim service)) [] [] with
    | (.ok foundLogos, probed) => (.ok foundLogos, probed)
    | (.error message, probed) =>
      (.error ("Failed to search for logos: ".toList ++ message), probed)

/-! ## The batch path -/

/-- The part of an axios response that `downloadLogos` reads: the status and the length
of the body. -/
structure AxiosResponse where
  status : Nat
  dataLength : Nat
  deriving DecidableEq, Repr

/-- The world of `downloadLogos`: directory creation, `axios.get` (which rejects on a
timeout, a network error or a status outside 2xx), `path.join` and `fs.writeFile`. -/
structure BatchHost where
  mkdir : JSString → Except JSString Unit
  get : JSString → Except JSString AxiosResponse
  join : JSString → JSString → JSString
  writeFile : JSString → Except JSString Unit

/-- An element of `logos` in `downloadLogos`. -/
structure Logo where
  filename : JSString
  filepath : JSString
  url : JSString
  variant : JSString
  deriving DecidableEq, Repr

/-- The object returned by `downloadLogos`; `count` is absent from the error object and
`error` from the normal one. -/
structure BatchResult where
  success : Bool
  service : JSString
  count : Option Nat
  error : Option JSString
  logos : List Logo
  deriving DecidableEq, Repr

/-- The array `sources` of `downloadLogos`. -/
def sources (variant : JSString) : List JSString :=
  [ "https://cdn.jsdelivr.net/npm/simple-icons@latest/icons/".toList ++ variant
      ++ ".svg".toList,
    "https://raw.githubusercontent.com/simple-icons/simple-icons/develop/icons/".toList
      ++ variant ++ ".svg".toList,
    "https://raw.githubusercontent.com/devicons/devicon/master/icons/".toList ++ variant
      ++ "/".toList ++ variant ++ "-original.svg".toList,
    "https://raw.githubusercontent.com/devicons/devicon/master/icons/".toList ++ variant
      ++ "/".toList ++ variant ++ "-plain.svg".toList,
    "https://api.iconify.design/logos:".toList ++ variant ++ ".svg".toList,
    "https://api.iconify.design/simple-icons:".toList ++ variant ++ ".svg".toList,
    "https://raw.githubusercontent.com/gilbarbara/logos/master/logos/".toList ++ variant
      ++ ".svg".toList,
    "https://img.icons8.com/color/512/".toList ++ variant ++ ".png".toList,
    "https://img.icons8.com/fluency/512/".toList ++ variant ++ ".png".toList,
    "https://logo.clearbit.com/".toList ++ variant ++ ".com".toList ]

/-- The loop `for (let i = 0; i < sources.length && logos.length < count; i++)` over the
sources still to try; an exception of `axios.get` or of `fs.writeFile` is caught and the
loop goes on.  `probed` lists the URLs requested so far. -/
def sourceLoop (host : BatchHost) (service dir variant : JSString) (count : Nat) :
    List JSString → List Logo → List JSString → List Logo × List JSString
  | [], logos, probed => (logos, probed)
  | source :: rest, logos, probed =>
    if logos.length < count then
      match host.get source with
      | .error _ => sourceLoop host service dir variant count rest logos (probed ++ [source])
      | .ok res =>
        if res.status = 200 ∧ res.dataLength > 0 then
          let ext := if includes source ".svg".toList then "svg".toList else "png".toList
          let filename :=
            service ++ "-".toList ++ decimal (logos.length + 1) ++ ".".toList ++ ext
          let filepath := host.join dir filename
          match host.writeFile filepath with
          | .error _ =>
            sourceLoop host service dir variant count rest logos (probed ++ [source])
          | .ok _ =>
            sourceLoop host service dir variant count rest
              (logos ++ [{ filename := filename, filepath := filepath, url := source,
                           variant := variant }])
              (probed ++ [source])
        else sourceLoop host service dir variant count rest logos (probed ++ [source])
    else (logos, probed)

/-- The loop `for (const variant of serviceVariations)` of `downloadLogos`. -/
def variantLoop (host : BatchHost) (service dir : JSString) (count : Nat) :
    List JSString → List Logo → List JSString → List Logo × List JSString
  | [], logos, probed => (logos, probed)
  | variant :: rest, logos, probed =>
    if logos.length ≥ count then (logos, probed)
    else
      let next := sourceLoop host service dir variant count (sources variant) logos probed
      variantLoop host service dir count rest next.1 next.2

/-- `downloadLogos(service, count, dir)`: the returned object and the URLs requested.
Console output under `verbose` is left out. -/
def downloadLogos (toLowerCase : JSString → JSString) (host : BatchHost)
    (service : JSString) (count : Nat) (dir : JSString) : BatchResult × List JSString :=
  match host.mkdir dir with
  | .error message =>
    ({ success := false, service := service, count := none, error := some message,
       logos := [] }, [])
  | .ok _ =>
    let run := variantLoop host service dir count (serviceVariations toLowerCase service) [] []
    ({ success := decide (run.1.length > 0), service := service,
       count := some run.1.length, error := none, logos := run.1 }, run.2)

/-! ## Oracles for concrete runs -/

/-- A network where exactly the URLs of `good` answer `200 OK` and every other request is
rejected. -/
def fetchOnly (good : List JSString) : Fetch :=
  fun url => if url ∈ good then .ok { ok := true, status := 200 } else .error "miss".toList

/-- The answer of the probe oracle for `url`: whether the existence check succeeds. -/
def probeSucceeds (fetch : Fetch) (url : JSString) : Bool :=
  match fetch url with
  | .ok response => response.ok && response.status == 200
  | .error _ => false

/-- Whether the batch probe of `url` succeeds: `axios.get` resolves with status 200 and a
non-empty body. -/
def batchProbeSucceeds (host : BatchHost) (url : JSString) : Bool :=
  match host.get url with
  | .ok res => decide (res.status = 200 ∧ res.dataLength > 0)
  | .error _ => false

/-- The file name given to the logo found at `source` when it becomes logo number `n`. -/
def batchFilename (service : JSString) (n : Nat) (source : JSString) : JSString :=
  service ++ "-".toList ++ decimal n ++ ".".toList
    ++ (if includes source ".svg".toList then "svg".toList else "png".toList)

/-- The object pushed onto `logos` for the logo found at `source` as number `n`. -/
def mkLogo (host : BatchHost) (service dir variant : JSString) (n : Nat)
    (source : JSString) : Logo :=
  { filename := batchFilename service n source,
    filepath := host.join dir (batchFilename service n source),
    url := source, variant := variant }

/-- Whether the request of `source` ends with a logo recorded as number `n`: the probe
succeeds and the file is written. -/
def recorded (host : BatchHost) (service dir : JSString) (n : Nat) (source : JSString) :
    Bool :=
  batchProbeSucceeds host source
    && (match host.writeFile (host.join dir (batchFilename service n source)) with
        | .ok _ => true
        | .error _ => false)

/-- A batch world where the directory can be created and every request times out. -/
def deadHost : BatchHost :=
  { mkdir := fun _ => .ok (),
    get := fun _ => .error "timeout of 5000ms exceeded".toList,
    join := fun dir filename => dir ++ "/".toList ++ filename,
    writeFile := fun _ => .ok () }

/-- The number written by a list of decimal digit characters. -/
def digitsValue (l : JSString) : Nat :=
  l.foldl (fun a c => 10 * a + (c.toNat - 48)) 0

/-- What the ordering claims read off a hit: variant, URL, type and source. -/
def LogoHit.core (hit : LogoHit) : JSString × JSString × JSString × JSString :=
  (hit.variant, hit.url, hit.type, hit.source)

/-- The same four components of a valid logo. -/
def ValidLogo.core (logo : ValidLogo) : JSString × JSString × JSString × JSString :=
  (logo.variant, logo.url, logo.type, logo.source)

/-- The succeeding entries of the catalog of `variant`, in catalog order, as valid logos. -/
def validOf (fetch : Fetch) (service variant : JSString) : List ValidLogo :=
  ((generateLogoUrls variant).filter (fun d => probeSucceeds fetch d.url)).map
    (fun d => { url := d.url, type := d.type, source := d.source, variant := variant,
                originalSearch := service })

/-- The succeeding entries of the catalog of `variant`, in catalog order, as
(variant, URL, type, source). -/
def hitsOf (fetch : Fetch) (variant : JSString) :
    List (JSString × JSString × JSString × JSString) :=
  ((generateLogoUrls variant).filter (fun d => probeSucceeds fetch d.url)).map
    (fun d => (variant, d.url, d.type, d.source))

/-- The object pushed onto `foundLogos` for `logo` when the new length is `n`:
`{ ...logo, id, downloadUrl: logo.url }`. -/
def mkHit (service : JSString) (n : Nat) (logo : ValidLogo) : LogoHit :=
  { url := logo.url, type := logo.type, source := logo.source, variant := logo.variant,
    originalSearch := logo.originalSearch,
    id := service ++ "-".toList ++ decimal n, downloadUrl := logo.url }

/-- The ids `service-1`, ..., `service-n`. -/
def idsOf (service : JSString) (n : Nat) : List JSString :=
  (List.range n).map (fun k => service ++ "-".toList ++ decimal (k + 1))

/-! ## The batch path: target sequence and uncapped yield -/

/-- The full target sequence of the batch path: the variants in generation order, each
expanded to its ten sources in catalog order. -/
def batchTargets (toLowerCase : JSString → JSString) (service : JSString) : List JSString :=
  (serviceVariations toLowerCase service).flatMap sources

/-- The number of logos on record after requesting all of `srcs` in order, starting from
`n` logos, with no cap: what a sequence of targets yields. -/
def recordedCount (host : BatchHost) (service dir : JSString) : List JSString → Nat → Nat
  | [], n => n
  | source :: rest, n =>
    recordedCount host service dir rest
      (if recorded host service dir (n + 1) source then n + 1 else n)

/-- The number of logos on record after the capped loop has gone through `srcs`, starting
from `n` logos. -/
def cappedCount (host : BatchHost) (service dir : JSString) (count : Nat) :
    List JSString → Nat → Nat
  | [], n => n
  | source :: rest, n =>
    if n < count then
      cappedCount host service dir count rest
        (if recorded host service dir (n + 1) source then n + 1 else n)
    else n

/-- The URLs the capped loop requests out of `srcs`, starting from `n` logos. -/
def probeSeq (host : BatchHost) (service dir : JSString) (count : Nat) :
    List JSString → Nat → List JSString
  | [], _ => []
  | source :: rest, n =>
    if n < count then
      source :: probeSeq host service dir count rest
        (if recorded host service dir (n + 1) source then n + 1 else n)
    else []

/-- The file names of `logos` are numbered from `1` in order, each with the extension of
its own URL. -/
def FilenamesOk (service : JSString) (logos : List Logo) : Prop :=
  ∀ k (hk : k < logos.length),
    (logos.get ⟨k, hk⟩).filename = batchFilename service (k + 1) (logos.get ⟨k, hk⟩).url

/-- A batch world where the directory cannot be created (and no file can be written),
while every request would answer `200` with a body. -/
def noDirHost : BatchHost :=
  { mkdir := fun _ => .error "EACCES: permission denied, mkdir".toList,
    get := fun _ => .ok { status := 200, dataLength := 1024 },
    join := fun dir filename => dir ++ "/".toList ++ filename,
    writeFile := fun _ => .error "ENOENT: no such file or directory".toList }

/-- A batch world with misses: the Simple Icons CDN times out, the Iconify `logos`
collection answers with an empty body, the file `react-2.svg` cannot be written, and
everything else succeeds. -/
def flakyHost : BatchHost :=
  { mkdir := fun _ => .ok (),
    get := fun url =>
      if "https://cdn.jsdelivr.net/".toList.isPrefixOf url then
        .error "timeout of 5000ms exceeded".toList
      else if "https://api.iconify.design/logos:".toList.isPrefixOf url then
        .ok { status := 200, dataLength := 0 }
      else .ok { status := 200, dataLength := 2048 },
    join := fun dir filename => dir ++ "/".toList ++ filename,
    writeFile := fun path =>
      if path = "./logos/react-2.svg".toList then .error "ENOSPC".toList else .ok () }

/-! ## The hook `useLogoSearch` -/

/-- The state of `useLogoSearch`: the cells `logos`, `loading` and `error`, and the queries
of the searches started and not yet settled, oldest first. -/
structure HookState where
  logos : List LogoHit
  loading : Bool
  error : Option JSString
  inFlight : List JSString
  deriving DecidableEq, Repr

/-- What can happen to the hook: its effect runs because `debouncedSearchTerm` became `q`,
or the search at position `i` of the searches in flight settles. -/
inductive HookEvent where
  | effect (debouncedSearchTerm : JSString)
  | settle (i : Nat)
  deriving DecidableEq, Repr

/-- The state of the hook on mount. -/
def hookInit : HookState :=
  { logos := [], loading := false, error := none, inFlight := [] }

/-- One event of `useLogoSearch`.  The effect either clears `logos` and `error` (blank
term) or sets `loading`, clears `error` and starts `searchLogos(debouncedSearchTerm)`; it
returns no cleanup.  When a search settles, its continuation runs `setLogos(results)`, or
`setError(err.message); setLogos([])` in the `catch`, and `setLoading(false)`.  The search
is called with the default `maxLogos = 8`; loading the module is taken to succeed. -/
def hookStep (toLowerCase : JSString → JSString) (fetch : Fetch) (st : HookState) :
    HookEvent → HookState
  | .effect debouncedSearchTerm =>
    if trim debouncedSearchTerm = [] then { st with logos := [], error := none }
    else { st with loading := true, error := none,
                   inFlight := st.inFlight ++ [debouncedSearchTerm] }
  | .settle i =>
    match st.inFlight.get? i with
    | none => st
    | some q =>
      match (searchLogos toLowerCase fetch q 8).1 with
      | .ok results =>
        { st with logos := results, loading := false, inFlight := st.inFlight.eraseIdx i }
      | .error message =>
        { st with error := some message, logos := [], loading := false,
                  inFlight := st.inFlight.eraseIdx i }

/-- A run of the hook over a sequence of events. -/
def hookRun (toLowerCase : JSString → JSString) (fetch : Fetch) (st : HookState)
    (events : List HookEvent) : HookState :=
  events.foldl (hookStep toLowerCase fetch) st

/-- The array `searchLogos(q)` resolves to (empty if it throws). -/
def resultsOf (toLowerCase : JSString → JSString) (fetch : Fetch) (q : JSString) :
    List LogoHit :=
  match (searchLogos toLowerCase fetch q 8).1 with
  | .ok results => results
  | .error _ => []

/-- A network where every URL answers `200 OK`. -/
def allOk : Fetch :=
  fun _ => .ok { ok := true, status := 200 }

/-! ## `downloadLogo` -/

/-- The part of a `fetch` response that `downloadLogo` reads; `blob` is the outcome of
`response.blob()`. -/
structure DownloadResponse where
  ok : Bool
  statusText : JSString
  blob : Except JSString Unit

/-- `downloadLogo(url, filename)`: `.ok ()` when the save was triggered, otherwise the
message of the error thrown.  `body` is the `try` block, in which the `throw` for a
response that is not OK sits; the `catch` wraps whatever the block threw.  The DOM calls
that trigger the save are taken to succeed. -/
def downloadLogo (fetch : JSString → Except JSString DownloadResponse) (url : JSString) :
    Except JSString Unit :=
  let body : Except JSString Unit :=
    match fetch url with
    | .error message => .error message
    | .ok response =>
      if !response.ok then .error ("Failed to download logo: ".toList ++ response.statusText)
      else
        match response.blob with
        | .error message => .error message
        | .ok _ => .ok ()
  match body with
  | .ok _ => .ok ()
  | .error message => .error ("Failed to download logo: ".toList ++ message)

/-- A server that answers every request with `404 Not Found`. -/
def fetchNotFound : JSString → Except JSString DownloadResponse :=
  fun _ => .ok { ok := false, statusText := "Not Found".toList, blob := .ok () }

/-- The variants that `searchLogos(service)` goes through: lines 131-135 of
`logoService.js`, the blank guard followed by
`const variations = generateServiceVariations(service.trim())`.  The function
`generateServiceVariations` is not exported and this is its only call, so this is variant
generation as a caller of the module can reach it; on a blank `service` the function
returns at the guard and no variant is generated. -/
def searchVariations (toLowerCase : JSString → JSString) (service : JSString) :
    List JSString :=
  if service = [] ∨ trim service = [] then []
  else generateServiceVariations toLowerCase (trim service)

/-! ## Lemmas on duplicate removal -/

section Dedup

variable {α : Type} [DecidableEq α]

theorem newSet_snoc (xs : List α) (x : α) :
    newSet (xs ++ [x]) = setAdd (newSet xs) x := by
  simp [newSet, List.foldl_append]

theorem mem_newSet (xs : List α) (x : α) : x ∈ newSet xs ↔ x ∈ xs := by
  induction xs using List.reverseRecOn with
  | nil => simp [newSet]
  | append_singleton xs a ih =>
    rw [newSet_snoc]
    unfold setAdd
    split
    · rename_i h
      constructor
      · intro hx; exact List.mem_append_left _ (ih.mp hx)
      · intro hx
        rcases List.mem_append.mp hx with hx | hx
        · exact ih.mpr hx
        · rw [List.mem_singleton] at hx; rw [hx]; exact h
    · simp [ih]

theorem nodup_newSet (xs : List α) : (newSet xs).Nodup := by
  induction xs using List.reverseRecOn with
  | nil => simp [newSet]
  | append_singleton xs a ih =>
    rw [newSet_snoc]
    unfold setAdd
    split
    · exact ih
    · rename_i h
      rw [List.nodup_append]
      refine ⟨ih, List.nodup_singleton a, ?_⟩
      intro y hy hy1
      rw [List.mem_singleton] at hy1
      exact h (hy1 ▸ hy)

theorem firstIndex_snoc_of_mem (xs : List α) (a x : α) (h : a ∈ xs) :
    firstIndex (xs ++ [x]) a = firstIndex xs a :=
  List.indexOf_append_of_mem h

theorem firstIndex_snoc_of_not_mem (xs : List α) (x : α) (h : x ∉ xs) :
    firstIndex (xs ++ [x]) x = xs.length := by
  unfold firstIndex
  rw [List.indexOf_append_of_not_mem h]
  simp

theorem firstIndex_lt_length (xs : List α) (a : α) (h : a ∈ xs) :
    firstIndex xs a < xs.length :=
  List.indexOf_lt_length.mpr h

theorem pairwise_newSet (xs : List α) :
    (newSet xs).Pairwise (fun a b => firstIndex xs a < firstIndex xs b) := by
  induction xs using List.reverseRecOn with
  | nil => simp [newSet]
  | append_singleton xs x ih =>
    have step : (newSet xs).Pairwise
        (fun a b => firstIndex (xs ++ [x]) a < firstIndex (xs ++ [x]) b) := by
      refine List.Pairwise.imp_of_mem ?_ ih
      intro a b ha hb hab
      rw [firstIndex_snoc_of_mem xs a x ((mem_newSet xs a).mp ha),
        firstIndex_snoc_of_mem xs b x ((mem_newSet xs b).mp hb)]
      exact hab
    rw [newSet_snoc]
    unfold setAdd
    split
    · exact step
    · rename_i h
      have hx : x ∉ xs := fun hx => h ((mem_newSet xs x).mpr hx)
      rw [List.pairwise_append]
      refine ⟨step, List.pairwise_singleton _ _, ?_⟩
      intro a ha b hb
      rw [List.mem_singleton] at hb
      subst hb
      have ha1 : a ∈ xs := (mem_newSet xs a).mp ha
      rw [firstIndex_snoc_of_mem xs a b ha1, firstIndex_snoc_of_not_mem xs b hx]
      exact firstIndex_lt_length xs a ha1

theorem foldl_setAdd_append (xs acc : List α) :
    ∃ t, xs.foldl setAdd acc = acc ++ t := by
  induction xs generalizing acc with
  | nil => exact ⟨[], by simp⟩
  | cons x xs ih =>
    simp only [List.foldl_cons]
    obtain ⟨t, ht⟩ := ih (setAdd acc x)
    unfold setAdd at ht ⊢
    split at ht
    · rename_i h; rw [if_pos h]; exact ⟨t, ht⟩
    · rename_i h; rw [if_neg h]; exact ⟨x :: t, by rw [ht]; simp⟩

theorem head_newSet (x : α) (xs : List α) :
    (newSet (x :: xs)).head? = some x := by
  obtain ⟨t, ht⟩ := foldl_setAdd_append xs [x]
  have : newSet (x :: xs) = xs.foldl setAdd [x] := by simp [newSet, setAdd]
  rw [this, ht]
  rfl

theorem filterFirstIndex_snoc (xs : List α) (x : α) :
    filterFirstIndex (xs ++ [x])
      = if x ∈ xs then filterFirstIndex xs else filterFirstIndex xs ++ [x] := by
  have hfront : xs.enum.filter (fun p => firstIndex (xs ++ [x]) p.2 == p.1)
      = xs.enum.filter (fun p => firstIndex xs p.2 == p.1) := by
    apply List.filter_congr
    intro p hp
    rw [firstIndex_snoc_of_mem xs p.2 x (List.snd_mem_of_mem_enum hp)]
  unfold filterFirstIndex
  rw [List.enum_append, List.filter_append, hfront, List.enumFrom_singleton, List.map_append]
  by_cases hx : x ∈ xs
  · have hlt := firstIndex_lt_length xs x hx
    have hne : (firstIndex (xs ++ [x]) x == xs.length) = false := by
      rw [firstIndex_snoc_of_mem xs x x hx]
      simpa using Nat.ne_of_lt hlt
    rw [if_pos hx]
    simp [List.filter, hne]
  · have heq : (firstIndex (xs ++ [x]) x == xs.length) = true := by
      rw [firstIndex_snoc_of_not_mem xs x hx]
      simp
    rw [if_neg hx]
    simp [List.filter, heq]

theorem filterFirstIndex_eq_newSet (arr : List α) :
    filterFirstIndex arr = newSet arr := by
  induction arr using List.reverseRecOn with
  | nil => rfl
  | append_singleton xs x ih =>
    rw [filterFirstIndex_snoc, newSet_snoc, ih]
    unfold setAdd
    simp only [mem_newSet]

end Dedup

/-! ## Lemmas on strings -/

theorem matchAtEnd_length (a b : Char) (l : JSString) (h : matchAtEnd a b l = true) :
    l.length = 2 := by
  match l, h with
  | [_, _], _ => rfl

theorem replaceTrailingI_cons (a b c : Char) (rest : JSString) :
    replaceTrailingI a b (c :: rest)
      = if matchAtEnd a b (c :: rest) then [] else c :: replaceTrailingI a b rest := rfl

theorem replaceTrailingI_append (a b x y : Char) (p : JSString)
    (hx : letterI a x = true) (hy : letterI b y = true) :
    replaceTrailingI a b (p ++ [x, y]) = p := by
  induction p with
  | nil => simp [replaceTrailingI, matchAtEnd, hx, hy]
  | cons c p ih =>
    have hno : matchAtEnd a b (c :: (p ++ [x, y])) = false := by
      cases hm : matchAtEnd a b (c :: (p ++ [x, y])) with
      | false => rfl
      | true =>
        have := matchAtEnd_length a b _ hm
        simp at this
    rw [List.cons_append, replaceTrailingI_cons, hno, ih]
    simp

theorem dropWhile_eq_nil_of_all (p : Char → Bool) (s : JSString)
    (h : ∀ c ∈ s, p c = true) : s.dropWhile p = [] := by
  induction s with
  | nil => rfl
  | cons c s ih =>
    have hc : p c = true := h c (List.mem_cons_self c s)
    simp only [List.dropWhile_cons, hc, if_true]
    exact ih (fun d hd => h d (List.mem_cons_of_mem c hd))

theorem trim_eq_nil_of_all (s : JSString) (h : ∀ c ∈ s, isWhiteSpace c = true) :
    trim s = [] := by
  unfold trim
  rw [dropWhile_eq_nil_of_all isWhiteSpace s h]
  rfl

theorem includes_iff (s pat : JSString) : includes s pat = true ↔ pat <:+: s := by
  unfold includes
  rw [List.any_eq_true, List.infix_iff_prefix_suffix]
  constructor
  · rintro ⟨t, ht, hp⟩
    exact ⟨t, List.isPrefixOf_iff_prefix.mp hp, (List.mem_tails t s).mp ht⟩
  · rintro ⟨t, hp, ht⟩
    exact ⟨t, (List.mem_tails t s).mpr ht, List.isPrefixOf_iff_prefix.mpr hp⟩

theorem suffix_append_of_length_eq (t u x : JSString) (h : t.length = u.length) :
    t <:+ x ++ u ↔ t = u := by
  constructor
  · rintro ⟨r, hr⟩
    exact (List.append_inj' hr h).2
  · rintro rfl
    exact List.suffix_append x t

/-! ## Decimal numerals -/

theorem digitChar_value (k : Nat) (h : k < 10) : (Nat.digitChar k).toNat - 48 = k := by
  interval_cases k <;> rfl

theorem toDigitsCore_append (fuel n : Nat) (ds : JSString) :
    Nat.toDigitsCore 10 fuel n ds = Nat.toDigitsCore 10 fuel n [] ++ ds := by
  induction fuel generalizing n ds with
  | zero => simp [Nat.toDigitsCore]
  | succ fuel ih =>
    simp only [Nat.toDigitsCore]
    split
    · simp
    · rw [ih (n / 10) (Nat.digitChar (n % 10) :: ds), ih (n / 10) [Nat.digitChar (n % 10)]]
      simp

theorem digitsValue_snoc (xs : JSString) (c : Char) :
    digitsValue (xs ++ [c]) = 10 * digitsValue xs + (c.toNat - 48) := by
  simp [digitsValue, List.foldl_append]

theorem digitsValue_toDigitsCore (fuel n : Nat) (h : n < fuel) :
    digitsValue (Nat.toDigitsCore 10 fuel n []) = n := by
  induction fuel generalizing n with
  | zero => omega
  | succ fuel ih =>
    simp only [Nat.toDigitsCore]
    split
    · rename_i h0
      have hv := digitChar_value (n % 10) (Nat.mod_lt n (by decide))
      have : digitsValue [Nat.digitChar (n % 10)] = (Nat.digitChar (n % 10)).toNat - 48 := by
        simp [digitsValue]
      rw [this, hv]
      omega
    · rename_i h0
      rw [toDigitsCore_append, digitsValue_snoc, ih (n / 10) (by omega),
        digitChar_value (n % 10) (Nat.mod_lt n (by decide))]
      omega

theorem digitsValue_decimal (n : Nat) : digitsValue (decimal n) = n :=
  digitsValue_toDigitsCore (n + 1) n (Nat.lt_succ_self n)

theorem decimal_injective : Function.Injective decimal := by
  intro a b h
  rw [← digitsValue_decimal a, ← digitsValue_decimal b, h]

/-! ## The interactive path: lemmas -/

theorem checkLogoUrl_eq (fetch : Fetch) (url : JSString) :
    checkLogoUrl fetch url = .ok (probeSucceeds fetch url) := by
  unfold checkLogoUrl probeSucceeds
  cases fetch url <;> rfl

theorem check_eq (fetch : Fetch) (variant service : JSString) (d : LogoData) :
    check fetch variant service d
      = .ok (if probeSucceeds fetch d.url then
          some { url := d.url, type := d.type, source := d.source, variant := variant,
                 originalSearch := service }
        else none) := by
  unfold check
  rw [checkLogoUrl_eq]

theorem promiseAll_map_ok {α β : Type} (f : β → Except JSString α) (g : β → α)
    (h : ∀ x, f x = .ok (g x)) (l : List β) :
    promiseAll (l.map f) = .ok (l.map g) := by
  induction l with
  | nil => rfl
  | cons x l ih =>
    simp only [List.map_cons, h x, promiseAll, ih]

theorem filterMap_ite_eq {α β : Type} (p : β → Bool) (mk : β → α) (l : List β) :
    (l.map (fun d => if p d then some (mk d) else none)).filterMap id
      = (l.filter p).map mk := by
  induction l with
  | nil => rfl
  | cons x l ih =>
    by_cases hx : p x = true
    · simp [List.filter_cons, hx, ← ih]
    · simp [List.filter_cons, hx, ← ih]

theorem searchLoop_cons (fetch : Fetch) (service : JSString) (maxLogos : Nat)
    (variant : JSString) (rest : List JSString) (found : List LogoHit)
    (probed : List JSString) :
    searchLoop fetch service maxLogos (variant :: rest) found probed
      = if found.length ≥ maxLogos then (.ok found, probed)
        else searchLoop fetch service maxLogos rest
          (pushValid service maxLogos (validOf fetch service variant) found)
          (probed ++ (generateLogoUrls variant).map (fun d => d.url)) := by
  rw [searchLoop]
  split
  · rfl
  · simp only []
    rw [promiseAll_map_ok (check fetch variant service) _ (check_eq fetch variant service)]
    simp only []
    rw [filterMap_ite_eq]
    rfl

theorem pushValid_cons (service : JSString) (maxLogos : Nat) (logo : ValidLogo)
    (rest : List ValidLogo) (found : List LogoHit) :
    pushValid service maxLogos (logo :: rest) found
      = if found.length < maxLogos then
          pushValid service maxLogos rest (found ++ [mkHit service (found.length + 1) logo])
        else pushValid service maxLogos rest found := rfl

theorem pushValid_core (service : JSString) (maxLogos : Nat) (valid : List ValidLogo)
    (found : List LogoHit) :
    (pushValid service maxLogos valid found).map LogoHit.core
      = found.map LogoHit.core
        ++ (valid.map ValidLogo.core).take (maxLogos - found.length) := by
  induction valid generalizing found with
  | nil => simp [pushValid]
  | cons logo rest ih =>
    rw [pushValid_cons]
    split
    · rename_i hlt
      rw [ih]
      obtain ⟨k, hk⟩ : ∃ k, maxLogos - found.length = k + 1 :=
        ⟨maxLogos - found.length - 1, by omega⟩
      have hk1 : maxLogos - (found ++ [mkHit service (found.length + 1) logo]).length = k := by
        simp only [List.length_append, List.length_singleton]
        omega
      rw [hk1, hk]
      simp [LogoHit.core, ValidLogo.core, mkHit]
    · rename_i hge
      rw [ih]
      have h0 : maxLogos - found.length = 0 := by omega
      rw [h0]
      simp

theorem pushValid_length_le (service : JSString) (maxLogos : Nat) (valid : List ValidLogo)
    (found : List LogoHit) (h : found.length ≤ maxLogos) :
    (pushValid service maxLogos valid found).length ≤ maxLogos := by
  have := congrArg List.length (pushValid_core service maxLogos valid found)
  simp only [List.length_map, List.length_append, List.length_take] at this
  omega

theorem idsOf_succ (service : JSString) (n : Nat) :
    idsOf service (n + 1) = idsOf service n ++ [service ++ "-".toList ++ decimal (n + 1)] := by
  simp [idsOf, List.range_succ]

theorem pushValid_ids (service : JSString) (maxLogos : Nat) (valid : List ValidLogo)
    (found : List LogoHit) (h : found.map (fun x => x.id) = idsOf service found.length) :
    (pushValid service maxLogos valid found).map (fun x => x.id)
      = idsOf service (pushValid service maxLogos valid found).length := by
  induction valid generalizing found with
  | nil => simpa [pushValid] using h
  | cons logo rest ih =>
    rw [pushValid_cons]
    split
    · apply ih
      rw [List.map_append, h, List.length_append, List.length_singleton, idsOf_succ]
      rfl
    · exact ih found h

theorem take_take_append {β : Type} (k : Nat) (l r : List β) :
    (l.take k ++ r).take k = (l ++ r).take k := by
  by_cases h : k ≤ l.length
  · rw [List.take_append_of_le_length (by simp [h]), List.take_take,
      List.take_append_of_le_length h]
    simp
  · rw [List.take_of_length_le (show l.length ≤ k by omega)]

theorem take_append_take_sub {β : Type} (m : Nat) (a l r : List β) :
    (a ++ l.take (m - a.length) ++ r).take m = (a ++ l ++ r).take m := by
  have e1 : (a ++ (l.take (m - a.length) ++ r)).take m
      = a.take m ++ (l.take (m - a.length) ++ r).take (m - a.length) :=
    List.take_append_eq_append_take
  have e2 : (a ++ (l ++ r)).take m = a.take m ++ (l ++ r).take (m - a.length) :=
    List.take_append_eq_append_take
  rw [List.append_assoc, List.append_assoc, e1, e2, take_take_append]

theorem searchLoop_spec (fetch : Fetch) (service : JSString) (maxLogos : Nat)
    (vs : List JSString) (found : List LogoHit) (probed : List JSString)
    (h : found.length ≤ maxLogos)
    (hid : found.map (fun x => x.id) = idsOf service found.length) :
    ∃ hits, (searchLoop fetch service maxLogos vs found probed).1 = .ok hits
      ∧ hits.map LogoHit.core
          = (found.map LogoHit.core ++ vs.flatMap (hitsOf fetch)).take maxLogos
      ∧ hits.map (fun x => x.id) = idsOf service hits.length := by
  induction vs generalizing found probed with
  | nil =>
    refine ⟨found, rfl, ?_, hid⟩
    rw [List.flatMap_nil, List.append_nil, List.take_of_length_le (by simpa using h)]
  | cons v rest ih =>
    rw [searchLoop_cons]
    split
    · rename_i hge
      refine ⟨found, rfl, ?_, hid⟩
      have hlen : (found.map LogoHit.core).length = maxLogos := by
        rw [List.length_map]; omega
      rw [List.take_append_of_le_length (by omega), List.take_of_length_le (by omega)]
    · rename_i hlt
      obtain ⟨hits, hr, hc, hi⟩ := ih
        (pushValid service maxLogos (validOf fetch service v) found)
        (probed ++ (generateLogoUrls v).map (fun d => d.url))
        (pushValid_length_le service maxLogos _ found h)
        (pushValid_ids service maxLogos _ found hid)
      refine ⟨hits, hr, ?_, hi⟩
      rw [hc, pushValid_core]
      have hv : (validOf fetch service v).map ValidLogo.core = hitsOf fetch v := by
        simp [validOf, hitsOf, ValidLogo.core, List.map_map, Function.comp_def]
      rw [hv, List.flatMap_cons, ← List.append_assoc]
      have := take_append_take_sub maxLogos (found.map LogoHit.core) (hitsOf fetch v)
        (rest.flatMap (hitsOf fetch))
      rw [List.length_map] at this
      exact this

theorem trim_nil : trim [] = [] := rfl

theorem searchLogos_of_searchLoop (toLowerCase : JSString → JSString) (fetch : Fetch)
    (service : JSString) (maxLogos : Nat) (h : trim service ≠ []) (hits : List LogoHit)
    (hr : (searchLoop fetch service maxLogos
      (generateServiceVariations toLowerCase (trim service)) [] []).1 = .ok hits) :
    (searchLogos toLowerCase fetch service maxLogos).1 = .ok hits := by
  have hs : service ≠ [] := fun hs => h (by rw [hs]; rfl)
  unfold searchLogos
  rw [if_neg (by simp [hs, h])]
  rcases hsl : searchLoop fetch service maxLogos
      (generateServiceVariations toLowerCase (trim service)) [] [] with ⟨r, p⟩
  rw [hsl] at hr
  simp only at hr
  subst hr
  rfl

theorem searchLogos_ok (toLowerCase : JSString → JSString) (fetch : Fetch)
    (service : JSString) (maxLogos : Nat) :
    ∃ hits, (searchLogos toLowerCase fetch service maxLogos).1 = .ok hits
      ∧ hits.length ≤ maxLogos
      ∧ hits.map (fun x => x.id) = idsOf service hits.length
      ∧ ((∀ url, probeSucceeds fetch url = false) → hits = []) := by
  by_cases h : trim service = []
  · refine ⟨[], ?_, Nat.zero_le _, rfl, fun _ => rfl⟩
    unfold searchLogos
    rw [if_pos (Or.inr h)]
  · obtain ⟨hits, hr, hc, hi⟩ := searchLoop_spec fetch service maxLogos
      (generateServiceVariations toLowerCase (trim service)) [] [] (Nat.zero_le _) rfl
    refine ⟨hits, searchLogos_of_searchLoop toLowerCase fetch service maxLogos h hits hr,
      ?_, hi, ?_⟩
    · have := congrArg List.length hc
      simp only [List.length_map, List.length_take] at this
      omega
    · intro hall
      have hnone : ∀ vs : List JSString, vs.flatMap (hitsOf fetch) = [] := by
        intro vs
        induction vs with
        | nil => rfl
        | cons v vs ih =>
          rw [List.flatMap_cons, ih]
          simp [hitsOf, hall]
      rw [hnone] at hc
      simpa using hc

theorem searchLogos_eq_searchLoop (toLowerCase : JSString → JSString) (fetch : Fetch)
    (service : JSString) (maxLogos : Nat) :
    searchLogos toLowerCase fetch service maxLogos
      = searchLoop fetch service maxLogos (searchVariations toLowerCase service) [] [] := by
  unfold searchLogos searchVariations
  by_cases h : service = [] ∨ trim service = []
  · rw [if_pos h, if_pos h]
    rfl
  · rw [if_neg h, if_neg h]
    obtain ⟨hits, hr, _⟩ := searchLoop_spec fetch service maxLogos
      (generateServiceVariations toLowerCase (trim service)) [] [] (Nat.zero_le _) rfl
    rcases hsl : searchLoop fetch service maxLogos
        (generateServiceVariations toLowerCase (trim service)) [] [] with ⟨r, p⟩
    rw [hsl] at hr
    simp only at hr
    subst hr
    rfl

theorem searchVariations_eq_nil_iff (toLowerCase : JSString → JSString)
    (service : JSString) :
    searchVariations toLowerCase service = [] ↔ trim service = [] := by
  unfold searchVariations
  constructor
  · intro h
    by_contra hne
    have hs : service ≠ [] := fun hs => hne (by rw [hs]; rfl)
    rw [if_neg (by simp [hs, hne])] at h
    have hd : (generateServiceVariations toLowerCase (trim service)).head?
        = some (trim service) := head_newSet _ _
    rw [h] at hd
    exact Option.noConfusion hd
  · intro h
    rw [if_pos (Or.inr h)]

theorem mem_hitsOf (fetch : Fetch) (v : JSString)
    (x : JSString × JSString × JSString × JSString) (h : x ∈ hitsOf fetch v) : x.1 = v := by
  unfold hitsOf at h
  rw [List.mem_map] at h
  obtain ⟨d, _, rfl⟩ := h
  rfl

theorem pairwise_flatMap_hitsOf (fetch : Fetch) (idx : JSString → Nat) (vs : List JSString)
    (h : vs.Pairwise (fun a b => idx a < idx b)) :
    (vs.flatMap (hitsOf fetch)).Pairwise (fun x y => idx x.1 ≤ idx y.1) := by
  induction vs with
  | nil => simp
  | cons v rest ih =>
    rw [List.pairwise_cons] at h
    rw [List.flatMap_cons, List.pairwise_append]
    refine ⟨?_, ih h.2, ?_⟩
    · refine List.Pairwise.imp_of_mem ?_ (List.pairwise_of_forall (R := fun _ _ => True)
        (fun _ _ => trivial))
      intro a b ha hb _
      rw [mem_hitsOf fetch v a ha, mem_hitsOf fetch v b hb]
    · intro a ha b hb
      rw [List.mem_flatMap] at hb
      obtain ⟨w, hw, hbw⟩ := hb
      rw [mem_hitsOf fetch v a ha, mem_hitsOf fetch w b hbw]
      exact Nat.le_of_lt (h.1 w hw)

theorem newSet_of_nodup {α : Type} [DecidableEq α] (xs : List α) (h : xs.Nodup) :
    newSet xs = xs := by
  induction xs using List.reverseRecOn with
  | nil => rfl
  | append_singleton xs x ih =>
    rw [List.nodup_append] at h
    have hx : x ∉ xs := fun hx => h.2.2 hx (List.mem_singleton_self x)
    rw [newSet_snoc, ih h.1]
    unfold setAdd
    rw [if_neg hx]

theorem pairwise_firstIndex_of_nodup {α : Type} [DecidableEq α] (xs : List α)
    (h : xs.Nodup) : xs.Pairwise (fun a b => firstIndex xs a < firstIndex xs b) := by
  have := pairwise_newSet xs
  rwa [newSet_of_nodup xs h] at this

/-! ## The batch path: lemmas -/

theorem sourceLoop_cons (host : BatchHost) (service dir variant : JSString) (count : Nat)
    (source : JSString) (rest : List JSString) (logos : List Logo)
    (probed : List JSString) :
    sourceLoop host service dir variant count (source :: rest) logos probed
      = if logos.length < count then
          if recorded host service dir (logos.length + 1) source = true then
            sourceLoop host service dir variant count rest
              (logos ++ [mkLogo host service dir variant (logos.length + 1) source])
              (probed ++ [source])
          else sourceLoop host service dir variant count rest logos (probed ++ [source])
        else (logos, probed) := by
  rw [sourceLoop]
  by_cases hlt : logos.length < count
  · rw [if_pos hlt, if_pos hlt]
    unfold recorded batchProbeSucceeds
    cases hget : host.get source with
    | error e => simp
    | ok res =>
      by_cases hres : res.status = 200 ∧ res.dataLength > 0
      · simp only [hres, and_self, if_true, decide_True, Bool.true_and]
        show (match host.writeFile (host.join dir (batchFilename service (logos.length + 1)
            source)) with
          | .error _ => sourceLoop host service dir variant count rest logos (probed ++ [source])
          | .ok _ => sourceLoop host service dir variant count rest
              (logos ++ [mkLogo host service dir variant (logos.length + 1) source])
              (probed ++ [source])) = _
        cases host.writeFile (host.join dir (batchFilename service (logos.length + 1) source))
          <;> simp
      · simp [hres]
  · rw [if_neg hlt, if_neg hlt]

theorem sourceLoop_length_le (host : BatchHost) (service dir variant : JSString)
    (count : Nat) (srcs : List JSString) (logos : List Logo) (probed : List JSString)
    (h : logos.length ≤ count) :
    (sourceLoop host service dir variant count srcs logos probed).1.length ≤ count := by
  induction srcs generalizing logos probed with
  | nil => exact h
  | cons source rest ih =>
    rw [sourceLoop_cons]
    split
    · rename_i hlt
      split
      · apply ih
        simp only [List.length_append, List.length_singleton]
        omega
      · exact ih logos _ h
    · exact h

theorem recorded_false_of_fail (host : BatchHost) (service dir : JSString) (n : Nat)
    (source : JSString) (h : batchProbeSucceeds host source = false) :
    recorded host service dir n source = false := by
  unfold recorded
  rw [h]
  rfl

theorem sourceLoop_all_fail (host : BatchHost) (service dir variant : JSString)
    (count : Nat) (srcs : List JSString) (logos : List Logo) (probed : List JSString)
    (hall : ∀ url, batchProbeSucceeds host url = false) :
    (sourceLoop host service dir variant count srcs logos probed).1 = logos := by
  induction srcs generalizing probed with
  | nil => rfl
  | cons source rest ih =>
    rw [sourceLoop_cons, recorded_false_of_fail host service dir _ source (hall source)]
    split
    · simp only [Bool.false_eq_true, if_false]
      exact ih _
    · rfl

theorem variantLoop_length_le (host : BatchHost) (service dir : JSString) (count : Nat)
    (vs : List JSString) (logos : List Logo) (probed : List JSString)
    (h : logos.length ≤ count) :
    (variantLoop host service dir count vs logos probed).1.length ≤ count := by
  induction vs generalizing logos probed with
  | nil => exact h
  | cons v rest ih =>
    unfold variantLoop
    split
    · exact h
    · exact ih _ _ (sourceLoop_length_le host service dir v count _ logos probed h)

theorem variantLoop_all_fail (host : BatchHost) (service dir : JSString) (count : Nat)
    (vs : List JSString) (logos : List Logo) (probed : List JSString)
    (hall : ∀ url, batchProbeSucceeds host url = false) :
    (variantLoop host service dir count vs logos probed).1 = logos := by
  induction vs generalizing probed with
  | nil => rfl
  | cons v rest ih =>
    unfold variantLoop
    split
    · rfl
    · simp only []
      rw [sourceLoop_all_fail host service dir v count _ logos probed hall]
      exact ih _

theorem downloadLogos_logos_length_le (toLowerCase : JSString → JSString) (host : BatchHost)
    (service : JSString) (count : Nat) (dir : JSString) :
    (downloadLogos toLowerCase host service count dir).1.logos.length ≤ count := by
  unfold downloadLogos
  split
  · exact Nat.zero_le _
  · exact variantLoop_length_le host service dir count _ [] [] (Nat.zero_le _)

/-! ## Variant generation: the claims -/

/-- C3. For every query `q` the variant list of `generateServiceVariations` has no
duplicates, has the same members as the candidate array, lists them by first occurrence
in rule order, starts with `q` and holds `q` lowercased; the list `serviceVariations` of
`downloadLogos` has the same five properties for its own candidate array. -/
theorem variants_dedup (toLowerCase : JSString → JSString) (q : JSString) :
    ((generateServiceVariations toLowerCase q).Nodup
      ∧ (∀ x, x ∈ generateServiceVariations toLowerCase q ↔ x ∈ variations toLowerCase q)
      ∧ (generateServiceVariations toLowerCase q).Pairwise
          (fun a b => firstIndex (variations toLowerCase q) a
            < firstIndex (variations toLowerCase q) b)
      ∧ (generateServiceVariations toLowerCase q).head? = some q
      ∧ toLowerCase q ∈ generateServiceVariations toLowerCase q)
    ∧ ((serviceVariations toLowerCase q).Nodup
      ∧ (∀ x, x ∈ serviceVariations toLowerCase q ↔ x ∈ batchVariations toLowerCase q)
      ∧ (serviceVariations toLowerCase q).Pairwise
          (fun a b => firstIndex (batchVariations toLowerCase q) a
            < firstIndex (batchVariations toLowerCase q) b)
      ∧ (serviceVariations toLowerCase q).head? = some q
      ∧ toLowerCase q ∈ serviceVariations toLowerCase q) := by
  refine ⟨⟨nodup_newSet _, mem_newSet _, pairwise_newSet _, head_newSet _ _, ?_⟩, ?_⟩
  · exact (mem_newSet _ _).mpr (by simp [variations])
  · unfold serviceVariations
    rw [filterFirstIndex_eq_newSet]
    refine ⟨nodup_newSet _, mem_newSet _, pairwise_newSet _, head_newSet _ _, ?_⟩
    exact (mem_newSet _ _).mpr (by simp [batchVariations])

/-- C4. A query `p ++ [x, y]` whose last two characters are `js` in any letter case, or
`db` in any letter case, has among its variants `p` (the two characters removed), the
query itself and the lowercased query. -/
theorem variants_suffix_rules (toLowerCase : JSString → JSString) (p : JSString)
    (x y : Char)
    (h : ((x = 'j' ∨ x = 'J') ∧ (y = 's' ∨ y = 'S'))
      ∨ ((x = 'd' ∨ x = 'D') ∧ (y = 'b' ∨ y = 'B'))) :
    p ∈ generateServiceVariations toLowerCase (p ++ [x, y])
    ∧ p ++ [x, y] ∈ generateServiceVariations toLowerCase (p ++ [x, y])
    ∧ toLowerCase (p ++ [x, y]) ∈ generateServiceVariations toLowerCase (p ++ [x, y]) := by
  refine ⟨?_, ?_, ?_⟩
  · refine (mem_newSet _ _).mpr ?_
    rcases h with ⟨hx, hy⟩ | ⟨hx, hy⟩
    · have e : replaceTrailingI 'j' 's' (p ++ [x, y]) = p := by
        apply replaceTrailingI_append
        · rcases hx with rfl | rfl <;> decide
        · rcases hy with rfl | rfl <;> decide
      simp [variations, e]
    · have e : replaceTrailingI 'd' 'b' (p ++ [x, y]) = p := by
        apply replaceTrailingI_append
        · rcases hx with rfl | rfl <;> decide
        · rcases hy with rfl | rfl <;> decide
      simp [variations, e]
  · exact (mem_newSet _ _).mpr (by simp [variations])
  · exact (mem_newSet _ _).mpr (by simp [variations])

/-- C4, at the query `ReactJS`: the variants are `ReactJS`, `React` and `reactjs`, three
distinct strings. -/
theorem variants_suffix_rules_witness :
    (("React".toList ∈ generateServiceVariations asciiLower ("React".toList ++ ['J', 'S'])
      ∧ "React".toList ++ ['J', 'S']
          ∈ generateServiceVariations asciiLower ("React".toList ++ ['J', 'S'])
      ∧ asciiLower ("React".toList ++ ['J', 'S'])
          ∈ generateServiceVariations asciiLower ("React".toList ++ ['J', 'S']))
    ∧ generateServiceVariations asciiLower "ReactJS".toList
        = ["ReactJS".toList, "React".toList, "reactjs".toList])
    ∧ generateServiceVariations asciiLower "MongoDb".toList
        = ["MongoDb".toList, "Mongo".toList, "mongodb".toList] :=
  ⟨⟨variants_suffix_rules asciiLower "React".toList 'J' 'S'
      (Or.inl ⟨Or.inr rfl, Or.inr rfl⟩), by decide⟩, by decide⟩

/-- C5. On the empty query and on every query of white space only, variant generation
returns the empty list: `searchLogos` returns at its blank guard before any variant is
generated.  The list `searchVariations` is the one `searchLogos` iterates over, for every
query, and it is empty only on blank queries. -/
theorem variants_blank (toLowerCase : JSString → JSString) (q : JSString)
    (h : ∀ c ∈ q, isWhiteSpace c = true) :
    searchVariations toLowerCase q = []
    ∧ (∀ (fetch : Fetch) (service : JSString) (maxLogos : Nat),
        searchLogos toLowerCase fetch service maxLogos
          = searchLoop fetch service maxLogos (searchVariations toLowerCase service) [] [])
    ∧ (∀ service : JSString, searchVariations toLowerCase service = [] ↔ trim service = []) := by
  refine ⟨?_, fun fetch service maxLogos =>
    searchLogos_eq_searchLoop toLowerCase fetch service maxLogos,
    fun service => searchVariations_eq_nil_iff toLowerCase service⟩
  unfold searchVariations
  rw [if_pos (Or.inr (trim_eq_nil_of_all q h))]

/-- C5, at the empty query and at the query of two spaces; for contrast, the query
`ReactJS` between two spaces has the three variants of `ReactJS`. -/
theorem variants_blank_witness :
    (∀ c ∈ "  ".toList, isWhiteSpace c = true)
    ∧ searchVariations asciiLower "  ".toList = []
    ∧ searchVariations asciiLower "".toList = []
    ∧ searchVariations asciiLower " ReactJS ".toList
        = ["ReactJS".toList, "React".toList, "reactjs".toList] :=
  ⟨by decide, (variants_blank asciiLower "  ".toList (by decide)).1,
    (variants_blank asciiLower "".toList (by decide)).1, by decide⟩

/-- C6. For every query made of white space only (the empty query included) and every
`maxLogos`, `searchLogos` returns the empty array, throws nothing and probes no URL. -/
theorem searchLogos_blank (toLowerCase : JSString → JSString) (fetch : Fetch)
    (q : JSString) (maxLogos : Nat) (h : ∀ c ∈ q, isWhiteSpace c = true) :
    (searchLogos toLowerCase fetch q maxLogos).1 = .ok []
    ∧ (searchLogos toLowerCase fetch q maxLogos).2 = [] := by
  unfold searchLogos
  rw [if_pos (Or.inr (trim_eq_nil_of_all q h))]
  exact ⟨rfl, rfl⟩

/-- C6, at the query of two spaces and at the empty query, on a network where every URL
would answer. -/
theorem searchLogos_blank_witness :
    (∀ c ∈ "  ".toList, isWhiteSpace c = true)
    ∧ ((searchLogos asciiLower (fun _ => .ok { ok := true, status := 200 }) "  ".toList 8).1
        = .ok []
      ∧ (searchLogos asciiLower (fun _ => .ok { ok := true, status := 200 }) "  ".toList 8).2
        = []) :=
  ⟨by decide, searchLogos_blank asciiLower (fun _ => .ok { ok := true, status := 200 })
    "  ".toList 8 (by decide)⟩

/-! ## Source catalog and extension: the claims -/

/-- C7. For every variant `v`, `generateLogoUrls v` has exactly ten entries, with the source
labels in the fixed order, each URL the template with `v` substituted, and an entry has
type `svg` exactly when its URL ends in `.svg`. -/
theorem catalog_shape (v : JSString) :
    (generateLogoUrls v).length = 10
    ∧ (generateLogoUrls v).map (fun e => e.source)
        = [ "Simple Icons (CDN)".toList, "Simple Icons (Raw)".toList,
            "DevIcons Original".toList, "DevIcons Plain".toList, "Iconify Logos".toList,
            "Iconify Simple".toList, "Logos Collection".toList, "Icons8 Color".toList,
            "Icons8 Fluency".toList, "Clearbit".toList ]
    ∧ (generateLogoUrls v).map (fun e => e.url)
        = [ "https://cdn.jsdelivr.net/npm/simple-icons@latest/icons/".toList ++ v
              ++ ".svg".toList,
            "https://raw.githubusercontent.com/simple-icons/simple-icons/develop/icons/".toList
              ++ v ++ ".svg".toList,
            "https://raw.githubusercontent.com/devicons/devicon/master/icons/".toList ++ v
              ++ "/".toList ++ v ++ "-original.svg".toList,
            "https://raw.githubusercontent.com/devicons/devicon/master/icons/".toList ++ v
              ++ "/".toList ++ v ++ "-plain.svg".toList,
            "https://api.iconify.design/logos:".toList ++ v ++ ".svg".toList,
            "https://api.iconify.design/simple-icons:".toList ++ v ++ ".svg".toList,
            "https://raw.githubusercontent.com/gilbarbara/logos/master/logos/".toList ++ v
              ++ ".svg".toList,
            "https://img.icons8.com/color/512/".toList ++ v ++ ".png".toList,
            "https://img.icons8.com/fluency/512/".toList ++ v ++ ".png".toList,
            "https://logo.clearbit.com/".toList ++ v ++ ".com".toList ]
    ∧ ∀ e ∈ generateLogoUrls v, e.type = "svg".toList ↔ ".svg".toList <:+ e.url := by
  refine ⟨rfl, rfl, rfl, ?_⟩
  intro e he
  have hshort : ∀ x : JSString, ".svg".toList <:+ x ++ ".svg".toList :=
    fun x => List.suffix_append x _
  have hlong : ∀ x : JSString, ".svg".toList <:+ x ++ "-original.svg".toList := by
    intro x
    exact ⟨x ++ "-original".toList, by simp⟩
  have hplain : ∀ x : JSString, ".svg".toList <:+ x ++ "-plain.svg".toList := by
    intro x
    exact ⟨x ++ "-plain".toList, by simp⟩
  have hpng : ∀ x : JSString, ¬ ".svg".toList <:+ x ++ ".png".toList := by
    intro x hx
    have := (suffix_append_of_length_eq _ _ x (by decide)).mp hx
    exact absurd this (by decide)
  have hcom : ∀ x : JSString, ¬ ".svg".toList <:+ x ++ ".com".toList := by
    intro x hx
    have := (suffix_append_of_length_eq _ _ x (by decide)).mp hx
    exact absurd this (by decide)
  have hne : ("png".toList : JSString) ≠ "svg".toList := by decide
  simp only [generateLogoUrls, List.mem_cons, List.mem_singleton, List.not_mem_nil,
    or_false] at he
  rcases he with rfl | rfl | rfl | rfl | rfl | rfl | rfl | rfl | rfl | rfl
  · exact ⟨fun _ => hshort _, fun _ => rfl⟩
  · exact ⟨fun _ => hshort _, fun _ => rfl⟩
  · exact ⟨fun _ => hlong _, fun _ => rfl⟩
  · exact ⟨fun _ => hplain _, fun _ => rfl⟩
  · exact ⟨fun _ => hshort _, fun _ => rfl⟩
  · exact ⟨fun _ => hshort _, fun _ => rfl⟩
  · exact ⟨fun _ => hshort _, fun _ => rfl⟩
  · exact ⟨fun h => absurd h hne, fun h => absurd h (hpng _)⟩
  · exact ⟨fun h => absurd h hne, fun h => absurd h (hpng _)⟩
  · exact ⟨fun h => absurd h hne, fun h => absurd h (hcom _)⟩

/-- C10. `getLogoExtension url` is `svg` if `url` contains `.svg`; otherwise `png` if it
contains `.png`; otherwise `jpg` if it contains `.jpg` or `.jpeg`; otherwise `png`.  The
result is one of `svg`, `png`, `jpg`, and the three sample URLs give `svg`, `png`, `png`. -/
theorem getLogoExtension_spec (url : JSString) :
    getLogoExtension url
        = (if ".svg".toList <:+: url then "svg".toList
          else if ".png".toList <:+: url then "png".toList
          else if ".jpg".toList <:+: url ∨ ".jpeg".toList <:+: url then "jpg".toList
          else "png".toList)
    ∧ getLogoExtension url ∈ ["svg".toList, "png".toList, "jpg".toList]
    ∧ getLogoExtension "https://x/y.svg".toList = "svg".toList
    ∧ getLogoExtension "https://x/y.png?a=1".toList = "png".toList
    ∧ getLogoExtension "https://x/y".toList = "png".toList := by
  refine ⟨?_, ?_, by decide, by decide, by decide⟩
  · unfold getLogoExtension
    simp only [Bool.or_eq_true, includes_iff]
  · unfold getLogoExtension
    split
    · simp
    · split
      · simp
      · split <;> simp

/-! ## The resolver: the claims -/

/-- C1. For every non-blank query, every cap and every network, `searchLogos` returns
normally, and its hits, read as (variant, url, type, source), are the first `maxLogos`
elements of the list that goes through the variants of the trimmed query in order and
keeps, for each variant, the succeeding catalog entries in catalog order.  Hence a hit of
an earlier variant never comes after a hit of a later one, and when the first variant
alone has at least `maxLogos` succeeding targets the result is exactly `maxLogos` hits,
all of that variant. -/
theorem searchLogos_order (toLowerCase : JSString → JSString) (fetch : Fetch)
    (service : JSString) (maxLogos : Nat) (h : trim service ≠ []) :
    ∃ hits, (searchLogos toLowerCase fetch service maxLogos).1 = .ok hits
      ∧ hits.map (fun x => (x.variant, x.url, x.type, x.source))
          = ((generateServiceVariations toLowerCase (trim service)).flatMap
              (fun v => ((generateLogoUrls v).filter
                (fun d => probeSucceeds fetch d.url)).map
                  (fun d => (v, d.url, d.type, d.source)))).take maxLogos
      ∧ hits.Pairwise (fun a b =>
          firstIndex (generateServiceVariations toLowerCase (trim service)) a.variant
            ≤ firstIndex (generateServiceVariations toLowerCase (trim service)) b.variant)
      ∧ ∀ v rest, generateServiceVariations toLowerCase (trim service) = v :: rest →
          maxLogos ≤ ((generateLogoUrls v).filter
            (fun d => probeSucceeds fetch d.url)).length →
          hits.length = maxLogos ∧ ∀ x ∈ hits, x.variant = v := by
  obtain ⟨hits, hr, hc, _⟩ := searchLoop_spec fetch service maxLogos
    (generateServiceVariations toLowerCase (trim service)) [] [] (Nat.zero_le _) rfl
  rw [List.map_nil, List.nil_append] at hc
  refine ⟨hits, searchLogos_of_searchLoop toLowerCase fetch service maxLogos h hits hr, hc,
    ?_, ?_⟩
  · have hp := pairwise_flatMap_hitsOf fetch
      (firstIndex (generateServiceVariations toLowerCase (trim service)))
      (generateServiceVariations toLowerCase (trim service))
      (pairwise_firstIndex_of_nodup _ (nodup_newSet _))
    have hq := List.Pairwise.sublist (List.take_sublist maxLogos _) hp
    rw [← hc, List.pairwise_map] at hq
    exact hq
  · intro v rest hv hlen
    rw [hv, List.flatMap_cons] at hc
    have hl : maxLogos ≤ (hitsOf fetch v).length := by
      simpa [hitsOf] using hlen
    rw [List.take_append_of_le_length hl] at hc
    constructor
    · have := congrArg List.length hc
      simp only [List.length_map, List.length_take] at this
      omega
    · intro x hx
      have hmem : LogoHit.core x ∈ hits.map LogoHit.core := List.mem_map_of_mem _ hx
      rw [hc] at hmem
      exact mem_hitsOf fetch v _ (List.mem_of_mem_take hmem)

/-- C1, on two runs.  Query `reactjs` where only the Simple Icons (CDN) URL of `react`
answers: exactly one hit, of variant `react`.  Query `ReactJS` with cap 2 where every URL
answers (three variants, ten successes each): exactly two hits, both of the first
variant. -/
theorem searchLogos_order_witness :
    (trim "reactjs".toList ≠ []
      ∧ ∃ hits, (searchLogos asciiLower
            (fetchOnly ["https://cdn.jsdelivr.net/npm/simple-icons@latest/icons/react.svg".toList])
            "reactjs".toList 8).1 = .ok hits
          ∧ hits.map (fun x => (x.variant, x.url, x.type, x.source))
              = [("react".toList,
                  "https://cdn.jsdelivr.net/npm/simple-icons@latest/icons/react.svg".toList,
                  "svg".toList, "Simple Icons (CDN)".toList)])
    ∧ (generateServiceVariations asciiLower (trim "ReactJS".toList)).length = 3
    ∧ ∃ hits, (searchLogos asciiLower (fun _ => .ok { ok := true, status := 200 })
          "ReactJS".toList 2).1 = .ok hits
        ∧ hits.length = 2 ∧ ∀ x ∈ hits, x.variant = "ReactJS".toList := by
  refine ⟨⟨by decide, ?_⟩, by decide, ?_⟩
  · obtain ⟨hits, hr, hc, _⟩ := searchLogos_order asciiLower
      (fetchOnly ["https://cdn.jsdelivr.net/npm/simple-icons@latest/icons/react.svg".toList])
      "reactjs".toList 8 (by decide)
    refine ⟨hits, hr, ?_⟩
    rw [hc]
    decide
  · obtain ⟨hits, hr, _, _, hfirst⟩ := searchLogos_order asciiLower
      (fun _ => .ok { ok := true, status := 200 }) "ReactJS".toList 2 (by decide)
    exact ⟨hits, hr, hfirst "ReactJS".toList ["React".toList, "reactjs".toList]
      (by decide) (by decide)⟩

/-- C2. For every query, every world and every cap, the batch result holds at most `cap`
logos, and `searchLogos` returns normally with at most `cap` hits. -/
theorem cap_invariant (toLowerCase : JSString → JSString) (host : BatchHost)
    (fetch : Fetch) (service dir : JSString) (cap : Nat) :
    (downloadLogos toLowerCase host service cap dir).1.logos.length ≤ cap
    ∧ ∃ hits, (searchLogos toLowerCase fetch service cap).1 = .ok hits
        ∧ hits.length ≤ cap := by
  obtain ⟨hits, hr, hle, _⟩ := searchLogos_ok toLowerCase fetch service cap
  exact ⟨downloadLogos_logos_length_le toLowerCase host service cap dir, hits, hr, hle⟩

/-- C8. For every query, cap and network, `searchLogos` returns normally and its hit
number `k + 1` has the id made of the original query, a hyphen and the decimal numeral of
`k + 1`; the ids of one result are pairwise distinct. -/
theorem hit_ids (toLowerCase : JSString → JSString) (fetch : Fetch) (service : JSString)
    (maxLogos : Nat) :
    ∃ hits, (searchLogos toLowerCase fetch service maxLogos).1 = .ok hits
      ∧ (∀ k (hk : k < hits.length),
          (hits.get ⟨k, hk⟩).id = service ++ "-".toList ++ decimal (k + 1))
      ∧ (hits.map (fun x => x.id)).Nodup
      ∧ decimal 1 = "1".toList ∧ decimal 10 = "10".toList := by
  obtain ⟨hits, hr, _, hi, _⟩ := searchLogos_ok toLowerCase fetch service maxLogos
  refine ⟨hits, hr, ?_, ?_, by decide, by decide⟩
  · intro k hk
    have h1 : (hits.map (fun x => x.id))[k]? = (idsOf service hits.length)[k]? := by rw [hi]
    simpa [idsOf, List.getElem?_map, List.getElem?_range hk, List.getElem?_eq_getElem hk]
      using h1
  · rw [hi]
    unfold idsOf
    refine List.Nodup.map ?_ (List.nodup_range _)
    intro a b hab
    have := decimal_injective (List.append_cancel_left hab)
    omega

/-- C9. When the directory can be created, `downloadLogos` returns no error, `count` equal
to the number of logos and `success` equal to `count > 0`; if every probe fails the result
is `success: false`, `count: 0` and no logos.  `searchLogos` never throws, whatever the
outcome of the requests, and returns the empty array if every probe fails. -/
theorem silent_failure (toLowerCase : JSString → JSString) (host : BatchHost)
    (fetch : Fetch) (service dir : JSString) (count maxLogos : Nat)
    (hmk : host.mkdir dir = .ok ()) :
    (downloadLogos toLowerCase host service count dir).1.error = none
    ∧ (downloadLogos toLowerCase host service count dir).1.count
        = some (downloadLogos toLowerCase host service count dir).1.logos.length
    ∧ (downloadLogos toLowerCase host service count dir).1.success
        = decide ((downloadLogos toLowerCase host service count dir).1.logos.length > 0)
    ∧ ((∀ url, batchProbeSucceeds host url = false) →
        (downloadLogos toLowerCase host service count dir).1
          = { success := false, service := service, count := some 0, error := none,
              logos := [] })
    ∧ ∃ hits, (searchLogos toLowerCase fetch service maxLogos).1 = .ok hits
        ∧ ((∀ url, probeSucceeds fetch url = false) → hits = []) := by
  obtain ⟨hits, hr, _, _, hnone⟩ := searchLogos_ok toLowerCase fetch service maxLogos
  refine ⟨?_, ?_, ?_, ?_, hits, hr, hnone⟩
  · unfold downloadLogos; rw [hmk]
  · unfold downloadLogos; rw [hmk]
  · unfold downloadLogos; rw [hmk]
  · intro hall
    unfold downloadLogos
    rw [hmk]
    simp only []
    rw [variantLoop_all_fail host service dir count _ [] [] hall]
    rfl

/-- C9, in a world where the directory is created and every request fails with a
timeout. -/
theorem silent_failure_witness :
    deadHost.mkdir "./logos".toList = .ok ()
    ∧ (downloadLogos asciiLower deadHost "reactjs".toList 5 "./logos".toList).1
        = { success := false, service := "reactjs".toList, count := some 0, error := none,
            logos := [] }
    ∧ (searchLogos asciiLower (fun _ => .error "Failed to fetch".toList)
        "reactjs".toList 8).1 = .ok [] := by
  obtain ⟨_, _, _, hbatch, hits, hr, hnone⟩ := silent_failure asciiLower deadHost
    (fun _ => .error "Failed to fetch".toList) "reactjs".toList "./logos".toList 5 8 rfl
  refine ⟨rfl, hbatch (fun _ => rfl), ?_⟩
  rw [hr, hnone (fun _ => rfl)]


/-! ## The batch path: trace and file names -/

section BatchTrace

variable (host : BatchHost) (service dir : JSString) (count : Nat)

theorem cappedCount_of_ge (srcs : List JSString) (n : Nat) (h : count ≤ n) :
    cappedCount host service dir count srcs n = n := by
  cases srcs with
  | nil => rfl
  | cons source rest => rw [cappedCount, if_neg (by omega)]

theorem probeSeq_of_ge (srcs : List JSString) (n : Nat) (h : count ≤ n) :
    probeSeq host service dir count srcs n = [] := by
  cases srcs with
  | nil => rfl
  | cons source rest => rw [probeSeq, if_neg (by omega)]

theorem cappedCount_append (a b : List JSString) (n : Nat) :
    cappedCount host service dir count (a ++ b) n
      = cappedCount host service dir count b (cappedCount host service dir count a n) := by
  induction a generalizing n with
  | nil => rfl
  | cons source rest ih =>
    rw [List.cons_append, cappedCount, cappedCount]
    split
    · exact ih _
    · rename_i hge
      rw [cappedCount_of_ge host service dir count b n (by omega)]

theorem probeSeq_append (a b : List JSString) (n : Nat) :
    probeSeq host service dir count (a ++ b) n
      = probeSeq host service dir count a n
        ++ probeSeq host service dir count b (cappedCount host service dir count a n) := by
  induction a generalizing n with
  | nil => rfl
  | cons source rest ih =>
    rw [List.cons_append, probeSeq, probeSeq, cappedCount]
    split
    · rw [ih, List.cons_append]
    · rename_i hge
      rw [probeSeq_of_ge host service dir count b n (by omega)]
      rfl

theorem cappedCount_le (srcs : List JSString) (n : Nat) (h : n ≤ count) :
    cappedCount host service dir count srcs n ≤ count := by
  induction srcs generalizing n with
  | nil => exact h
  | cons source rest ih =>
    rw [cappedCount]
    split
    · apply ih
      split <;> omega
    · exact h

theorem probeSeq_isPrefix (srcs : List JSString) (n : Nat) :
    probeSeq host service dir count srcs n <+: srcs := by
  induction srcs generalizing n with
  | nil => exact List.prefix_refl []
  | cons source rest ih =>
    rw [probeSeq]
    split
    · exact List.cons_prefix_cons.mpr ⟨rfl, ih _⟩
    · exact List.nil_prefix

theorem recordedCount_probeSeq (srcs : List JSString) (n : Nat) :
    recordedCount host service dir (probeSeq host service dir count srcs n) n
      = cappedCount host service dir count srcs n := by
  induction srcs generalizing n with
  | nil => rfl
  | cons source rest ih =>
    rw [probeSeq, cappedCount]
    split
    · rw [recordedCount]
      exact ih _
    · rfl

theorem probeSeq_eq_or (srcs : List JSString) (n : Nat) :
    probeSeq host service dir count srcs n = srcs
      ∨ count ≤ cappedCount host service dir count srcs n := by
  induction srcs generalizing n with
  | nil => exact Or.inl rfl
  | cons source rest ih =>
    rw [probeSeq, cappedCount]
    split
    · rcases ih (if recorded host service dir (n + 1) source = true then n + 1 else n) with
        h | h
      · exact Or.inl (by rw [h])
      · exact Or.inr h
    · exact Or.inr (by omega)

theorem probeSeq_shortest (srcs : List JSString) (n : Nat) (p : List JSString)
    (hp : p <+: probeSeq host service dir count srcs n)
    (hne : p ≠ probeSeq host service dir count srcs n) :
    recordedCount host service dir p n < count := by
  induction srcs generalizing n p with
  | nil =>
    rw [probeSeq] at hp hne
    exact absurd (List.prefix_nil.mp hp) hne
  | cons source rest ih =>
    rw [probeSeq] at hp hne
    split at hp
    · rename_i hlt
      rw [if_pos hlt] at hne
      cases p with
      | nil => exact hlt
      | cons x p =>
        obtain ⟨hx, hp1⟩ := List.cons_prefix_cons.mp hp
        subst hx
        rw [recordedCount]
        exact ih _ p hp1 (fun h => hne (by rw [h]))
    · rename_i hge
      rw [if_neg hge] at hne
      exact absurd (List.prefix_nil.mp hp) hne

theorem sourceLoop_trace (variant : JSString) (srcs : List JSString) (logos : List Logo)
    (probed : List JSString) :
    (sourceLoop host service dir variant count srcs logos probed).2
        = probed ++ probeSeq host service dir count srcs logos.length
    ∧ (sourceLoop host service dir variant count srcs logos probed).1.length
        = cappedCount host service dir count srcs logos.length := by
  induction srcs generalizing logos probed with
  | nil => exact ⟨by simp [sourceLoop, probeSeq], rfl⟩
  | cons source rest ih =>
    rw [sourceLoop_cons, probeSeq, cappedCount]
    split
    · split
      · rename_i hrec
        have := ih (logos ++ [mkLogo host service dir variant (logos.length + 1) source])
          (probed ++ [source])
        rw [List.length_append, List.length_singleton] at this
        simpa using this
      · have := ih logos (probed ++ [source])
        simpa using this
    · exact ⟨by simp, rfl⟩

theorem variantLoop_trace (vs : List JSString) (logos : List Logo)
    (probed : List JSString) :
    (variantLoop host service dir count vs logos probed).2
        = probed ++ probeSeq host service dir count (vs.flatMap sources) logos.length
    ∧ (variantLoop host service dir count vs logos probed).1.length
        = cappedCount host service dir count (vs.flatMap sources) logos.length := by
  induction vs generalizing logos probed with
  | nil => exact ⟨by simp [variantLoop, probeSeq], rfl⟩
  | cons v rest ih =>
    rw [variantLoop, List.flatMap_cons]
    split
    · rename_i hge
      rw [probeSeq_of_ge host service dir count _ _ hge,
        cappedCount_of_ge host service dir count _ _ hge]
      exact ⟨by simp, rfl⟩
    · simp only []
      obtain ⟨h2, h1⟩ := sourceLoop_trace host service dir count v (sources v) logos probed
      obtain ⟨i2, i1⟩ := ih (sourceLoop host service dir v count (sources v) logos probed).1
        (sourceLoop host service dir v count (sources v) logos probed).2
      rw [i2, i1, h2, h1, probeSeq_append, cappedCount_append, List.append_assoc]
      exact ⟨rfl, rfl⟩

theorem filenamesOk_nil : FilenamesOk service [] := by
  intro k hk
  exact absurd hk (Nat.not_lt_zero k)

theorem filenamesOk_push (variant source : JSString) (logos : List Logo)
    (h : FilenamesOk service logos) :
    FilenamesOk service
      (logos ++ [mkLogo host service dir variant (logos.length + 1) source]) := by
  intro k hk
  rw [List.length_append, List.length_singleton] at hk
  by_cases hlt : k < logos.length
  · have e : (logos ++ [mkLogo host service dir variant (logos.length + 1) source]).get
        ⟨k, by simp; omega⟩ = logos.get ⟨k, hlt⟩ := by
      simp [List.getElem_append_left hlt]
    rw [e]
    exact h k hlt
  · have hk1 : k = logos.length := by omega
    subst hk1
    have e : (logos ++ [mkLogo host service dir variant (logos.length + 1) source]).get
        ⟨logos.length, by simp⟩ = mkLogo host service dir variant (logos.length + 1) source := by
      simp
    rw [e]
    rfl

theorem sourceLoop_filenames (variant : JSString) (srcs : List JSString)
    (logos : List Logo) (probed : List JSString) (h : FilenamesOk service logos) :
    FilenamesOk service (sourceLoop host service dir variant count srcs logos probed).1 := by
  induction srcs generalizing logos probed with
  | nil => exact h
  | cons source rest ih =>
    rw [sourceLoop_cons]
    split
    · split
      · exact ih _ _ (filenamesOk_push host service dir variant source logos h)
      · exact ih _ _ h
    · exact h

theorem variantLoop_filenames (vs : List JSString) (logos : List Logo)
    (probed : List JSString) (h : FilenamesOk service logos) :
    FilenamesOk service (variantLoop host service dir count vs logos probed).1 := by
  induction vs generalizing logos probed with
  | nil => exact h
  | cons v rest ih =>
    rw [variantLoop]
    split
    · exact h
    · exact ih _ _ (sourceLoop_filenames host service dir count v _ logos probed h)

end BatchTrace


theorem downloadLogos_of_mkdir (toLowerCase : JSString → JSString) (host : BatchHost)
    (service dir : JSString) (count : Nat) (hmk : host.mkdir dir = .ok ()) :
    (downloadLogos toLowerCase host service count dir).1.logos
        = (variantLoop host service dir count (serviceVariations toLowerCase service) [] []).1
    ∧ (downloadLogos toLowerCase host service count dir).2
        = (variantLoop host service dir count (serviceVariations toLowerCase service) [] []).2 := by
  unfold downloadLogos
  rw [hmk]
  exact ⟨rfl, rfl⟩

theorem downloadLogos_filenamesOk (toLowerCase : JSString → JSString) (host : BatchHost)
    (service dir : JSString) (count : Nat) :
    FilenamesOk service (downloadLogos toLowerCase host service count dir).1.logos := by
  unfold downloadLogos
  split
  · exact filenamesOk_nil service
  · exact variantLoop_filenames host service dir count _ [] [] (filenamesOk_nil service)

/-! ## The batch path: the claims -/

/-- C11. For every query, count and world, the logo at position `k` of the result of
`downloadLogos` (the logo number `k + 1`) has the file name made of the service, a hyphen,
the decimal numeral of `k + 1`, a dot and the extension `svg` if its URL contains `.svg`
and `png` otherwise.  In the world `flakyHost`, where requests and a write fail in
between, the three logos are numbered 1, 2, 3. -/
theorem batch_filenames (toLowerCase : JSString → JSString) (host : BatchHost)
    (service dir : JSString) (count : Nat) :
    (∀ k, ((downloadLogos toLowerCase host service count dir).1.logos.get? k).map
          (fun logo => logo.filename)
        = ((downloadLogos toLowerCase host service count dir).1.logos.get? k).map
          (fun logo => service ++ "-".toList ++ decimal (k + 1) ++ ".".toList
            ++ (if ".svg".toList <:+: logo.url then "svg".toList else "png".toList)))
    ∧ (downloadLogos asciiLower flakyHost "react".toList 3 "./logos".toList).1.logos.map
          (fun logo => logo.filename)
        = ["react-1.svg".toList, "react-2.png".toList, "react-3.png".toList] := by
  refine ⟨?_, by decide⟩
  intro k
  have hok := downloadLogos_filenamesOk toLowerCase host service dir count
  by_cases hk : k < (downloadLogos toLowerCase host service count dir).1.logos.length
  · rw [List.get?_eq_get hk, Option.map_some', Option.map_some', hok k hk]
    unfold batchFilename
    simp only [includes_iff]
  · rw [List.get?_eq_none.mpr (by omega)]
    rfl

/-- C14, as stated, fails where the directory cannot be created: with count 5 nothing is
found, so the claim asks for the whole target sequence to be probed, and no request is
issued at all. -/
theorem batch_short_circuit_counterexample :
    (downloadLogos asciiLower noDirHost "react".toList 5 "./logos".toList).2 = []
    ∧ (downloadLogos asciiLower noDirHost "react".toList 5 "./logos".toList).1.logos = []
    ∧ recordedCount noDirHost "react".toList "./logos".toList
        (batchTargets asciiLower "react".toList) 0 < 5
    ∧ (batchTargets asciiLower "react".toList).length = 10
    ∧ (downloadLogos asciiLower noDirHost "react".toList 5 "./logos".toList).2
        ≠ batchTargets asciiLower "react".toList := by
  decide

/-- C14, amended.  Whenever the directory can be created, the URLs requested by
`downloadLogos` are, in order, an initial part of the full target sequence; the logos on
record are those this part yields; it is the whole sequence unless it yields `count`
logos; every shorter initial part of it yields fewer than `count` logos (no request is
issued once `count` logos are on record); and with `count = 0` nothing is requested. -/
theorem batch_short_circuit (toLowerCase : JSString → JSString) (host : BatchHost)
    (service dir : JSString) (count : Nat) (hmk : host.mkdir dir = .ok ()) :
    ∃ probed, (downloadLogos toLowerCase host service count dir).2 = probed
      ∧ probed <+: batchTargets toLowerCase service
      ∧ recordedCount host service dir probed 0
          = (downloadLogos toLowerCase host service count dir).1.logos.length
      ∧ (probed = batchTargets toLowerCase service
          ∨ recordedCount host service dir probed 0 = count)
      ∧ (∀ p, p <+: probed → p ≠ probed → recordedCount host service dir p 0 < count)
      ∧ (count = 0 → probed = []) := by
  obtain ⟨hl, hp⟩ := downloadLogos_of_mkdir toLowerCase host service dir count hmk
  obtain ⟨ht, hc⟩ := variantLoop_trace host service dir count
    (serviceVariations toLowerCase service) [] []
  rw [List.nil_append, List.length_nil] at ht
  rw [List.length_nil] at hc
  refine ⟨probeSeq host service dir count (batchTargets toLowerCase service) 0, ?_, ?_, ?_,
    ?_, ?_, ?_⟩
  · rw [hp, ht]; rfl
  · exact probeSeq_isPrefix host service dir count _ 0
  · rw [hl, hc, recordedCount_probeSeq]; rfl
  · rcases probeSeq_eq_or host service dir count (batchTargets toLowerCase service) 0 with
      h | h
    · exact Or.inl h
    · right
      rw [recordedCount_probeSeq]
      have := cappedCount_le host service dir count (batchTargets toLowerCase service) 0
        (Nat.zero_le _)
      omega
  · intro p hpre hne
    exact probeSeq_shortest host service dir count _ 0 p hpre hne
  · intro h0
    exact probeSeq_of_ge host service dir count _ 0 (by omega)

/-- C14 amended, in the world `flakyHost` with count 3: the directory is created, and the
requests are exactly the first nine of the ten targets of `react`. -/
theorem batch_short_circuit_witness :
    flakyHost.mkdir "./logos".toList = .ok ()
    ∧ (downloadLogos asciiLower flakyHost "react".toList 3 "./logos".toList).2
        = (batchTargets asciiLower "react".toList).take 9
    ∧ (batchTargets asciiLower "react".toList).length = 10
    ∧ ∃ probed, (downloadLogos asciiLower flakyHost "react".toList 3 "./logos".toList).2
          = probed
        ∧ probed <+: batchTargets asciiLower "react".toList
        ∧ recordedCount flakyHost "react".toList "./logos".toList probed 0 = 3 := by
  obtain ⟨probed, h1, h2, _, h4, _, _⟩ := batch_short_circuit asciiLower flakyHost
    "react".toList "./logos".toList 3 rfl
  refine ⟨rfl, by decide, by decide, probed, h1, h2, ?_⟩
  rcases h4 with h | h
  · exfalso
    have hlen := congrArg List.length h
    rw [← h1] at hlen
    revert hlen
    decide
  · exact h


/-! ## Agreement of the two paths -/

theorem dropWhile_of_none (p : Char → Bool) (s : JSString)
    (h : ∀ c ∈ s, p c = false) : s.dropWhile p = s := by
  cases s with
  | nil => rfl
  | cons c s =>
    rw [List.dropWhile_cons, h c (List.mem_cons_self c s)]
    rfl

theorem trim_of_none (s : JSString) (h : ∀ c ∈ s, isWhiteSpace c = false) : trim s = s := by
  unfold trim
  rw [dropWhile_of_none isWhiteSpace s h,
    dropWhile_of_none isWhiteSpace s.reverse (fun c hc => h c (List.mem_reverse.mp hc)),
    List.reverse_reverse]

theorem replaceRuns_of_none (r : JSString) (inRun : Bool) (s : JSString)
    (h : ∀ c ∈ s, isWhiteSpace c = false) : replaceRuns r inRun s = s := by
  induction s generalizing inRun with
  | nil => cases inRun <;> rfl
  | cons c s ih =>
    have hc : isWhiteSpace c = false := h c (List.mem_cons_self c s)
    rw [replaceRuns, hc, ih false (fun d hd => h d (List.mem_cons_of_mem c hd))]
    rfl

theorem newSet_append_of_mem {α : Type} [DecidableEq α] (l : List α) (x y : α)
    (hx : x ∈ l) (hy : y ∈ l) : newSet (l ++ [x, y]) = newSet l := by
  have e : l ++ [x, y] = (l ++ [x]) ++ [y] := by simp
  have h1 : newSet (l ++ [x]) = newSet l := by
    rw [newSet_snoc]
    unfold setAdd
    rw [if_pos ((mem_newSet l x).mpr hx)]
  rw [e, newSet_snoc, h1]
  unfold setAdd
  rw [if_pos ((mem_newSet l y).mpr hy)]

theorem generateLogoUrls_urls (v : JSString) :
    (generateLogoUrls v).map (fun d => d.url) = sources v := rfl

theorem variants_eq_of_none (toLowerCase : JSString → JSString) (q : JSString)
    (h : ∀ c ∈ q, isWhiteSpace c = false) :
    generateServiceVariations toLowerCase q = serviceVariations toLowerCase q := by
  have e : variations toLowerCase q = batchVariations toLowerCase q ++ [q, q] := by
    unfold variations batchVariations
    rw [replaceRuns_of_none [] false q h, replaceRuns_of_none ['-'] false q h]
    rfl
  have hq : q ∈ batchVariations toLowerCase q := by simp [batchVariations]
  unfold generateServiceVariations serviceVariations
  rw [e, newSet_append_of_mem _ q q hq hq, filterFirstIndex_eq_newSet]

theorem validOf_all_fail (fetch : Fetch) (service v : JSString)
    (hall : ∀ url, probeSucceeds fetch url = false) : validOf fetch service v = [] := by
  simp [validOf, hall]

theorem searchLoop_probed_all_fail (fetch : Fetch) (service : JSString) (maxLogos : Nat)
    (vs : List JSString) (probed : List JSString) (hpos : 0 < maxLogos)
    (hall : ∀ url, probeSucceeds fetch url = false) :
    (searchLoop fetch service maxLogos vs [] probed).2
      = probed ++ vs.flatMap (fun v => (generateLogoUrls v).map (fun d => d.url)) := by
  induction vs generalizing probed with
  | nil => simp [searchLoop]
  | cons v rest ih =>
    rw [searchLoop_cons, if_neg (by simp only [List.length_nil]; omega),
      validOf_all_fail fetch service v hall]
    have hpush : pushValid service maxLogos [] [] = [] := rfl
    rw [hpush, ih, List.flatMap_cons, List.append_assoc]

theorem probeSeq_all_fail (host : BatchHost) (service dir : JSString) (count : Nat)
    (srcs : List JSString) (n : Nat) (hn : n < count)
    (hall : ∀ url, batchProbeSucceeds host url = false) :
    probeSeq host service dir count srcs n = srcs := by
  induction srcs with
  | nil => rfl
  | cons source rest ih =>
    rw [probeSeq, if_pos hn, recorded_false_of_fail host service dir _ source (hall source)]
    simp only [Bool.false_eq_true, if_false]
    rw [ih]

theorem downloadLogos_probed_all_fail (toLowerCase : JSString → JSString) (host : BatchHost)
    (service dir : JSString) (count : Nat) (hmk : host.mkdir dir = .ok ())
    (hpos : 0 < count) (hall : ∀ url, batchProbeSucceeds host url = false) :
    (downloadLogos toLowerCase host service count dir).2
      = (serviceVariations toLowerCase service).flatMap sources := by
  rw [(downloadLogos_of_mkdir toLowerCase host service dir count hmk).2,
    (variantLoop_trace host service dir count _ [] []).1, List.nil_append, List.length_nil,
    probeSeq_all_fail host service dir count _ 0 hpos hall]

/-- C15, as stated, fails at the empty query, which holds no white-space character: the
batch path derives the ten URLs of the empty variant and requests them, while the
interactive path returns at its blank guard, derives no URL and probes nothing. -/
theorem paths_agree_counterexample :
    (∀ c ∈ "".toList, isWhiteSpace c = false)
    ∧ (serviceVariations asciiLower "".toList).flatMap sources = sources "".toList
    ∧ (sources "".toList).length = 10
    ∧ (searchVariations asciiLower "".toList).flatMap
        (fun v => (generateLogoUrls v).map (fun d => d.url)) = []
    ∧ (downloadLogos asciiLower deadHost "".toList 5 "./logos".toList).2 = sources "".toList
    ∧ (searchLogos asciiLower (fun _ => .error "Failed to fetch".toList) "".toList 8).2 = []
    ∧ (serviceVariations asciiLower "".toList).flatMap sources
        ≠ (searchVariations asciiLower "".toList).flatMap
            (fun v => (generateLogoUrls v).map (fun d => d.url)) := by
  decide

/-- C15, amended.  For every non-empty query without a white-space character, trimming
leaves it unchanged, the two white-space rules return the query itself, the variant list
of the batch path equals the list `searchLogos` iterates over, and so do the ordered lists
of URLs the two paths derive.  Where every probe fails and both caps are positive, so
that nothing cuts a run short, the two paths request exactly these URLs in this order. -/
theorem paths_agree_nonempty (toLowerCase : JSString → JSString) (q : JSString)
    (hne : q ≠ []) (h : ∀ c ∈ q, isWhiteSpace c = false) :
    (serviceVariations toLowerCase q).flatMap sources
        = (searchVariations toLowerCase q).flatMap
            (fun v => (generateLogoUrls v).map (fun d => d.url))
    ∧ serviceVariations toLowerCase q = searchVariations toLowerCase q
    ∧ searchVariations toLowerCase q = generateServiceVariations toLowerCase (trim q)
    ∧ trim q = q
    ∧ replaceRuns [] false q = q
    ∧ replaceRuns ['-'] false q = q
    ∧ (∀ (fetch : Fetch) (maxLogos : Nat),
        searchLogos toLowerCase fetch q maxLogos
          = searchLoop fetch q maxLogos (searchVariations toLowerCase q) [] [])
    ∧ (∀ (fetch : Fetch) (host : BatchHost) (dir : JSString) (count maxLogos : Nat),
        host.mkdir dir = .ok () → 0 < count → 0 < maxLogos →
        (∀ url, probeSucceeds fetch url = false) →
        (∀ url, batchProbeSucceeds host url = false) →
        (downloadLogos toLowerCase host q count dir).2
            = (searchLogos toLowerCase fetch q maxLogos).2
        ∧ (searchLogos toLowerCase fetch q maxLogos).2
            = (serviceVariations toLowerCase q).flatMap sources) := by
  have ht := trim_of_none q h
  have hv := variants_eq_of_none toLowerCase q h
  have hsv : searchVariations toLowerCase q
      = generateServiceVariations toLowerCase (trim q) := by
    unfold searchVariations
    rw [if_neg (by simp [hne, ht])]
  have hlists : serviceVariations toLowerCase q = searchVariations toLowerCase q := by
    rw [hsv, ht, hv]
  have hurls : (serviceVariations toLowerCase q).flatMap sources
      = (searchVariations toLowerCase q).flatMap
          (fun v => (generateLogoUrls v).map (fun d => d.url)) := by
    rw [hlists]
    rfl
  refine ⟨hurls, hlists, hsv, ht, replaceRuns_of_none [] false q h,
    replaceRuns_of_none ['-'] false q h,
    fun fetch maxLogos => searchLogos_eq_searchLoop toLowerCase fetch q maxLogos, ?_⟩
  intro fetch host dir count maxLogos hmk hc hm hf hb
  have hs : (searchLogos toLowerCase fetch q maxLogos).2
      = (serviceVariations toLowerCase q).flatMap sources := by
    rw [searchLogos_eq_searchLoop, searchLoop_probed_all_fail fetch q maxLogos _ [] hm hf,
      List.nil_append, hurls]
  exact ⟨by rw [hs, downloadLogos_probed_all_fail toLowerCase host q dir count hmk hc hb], hs⟩

/-- C15 amended, at the query `Socket-IO`: both paths derive the same thirty URLs, from
the variants `Socket-IO`, `socket-io` and `SocketIO`, and request all of them where every
request fails. -/
theorem paths_agree_nonempty_witness :
    "Socket-IO".toList ≠ []
    ∧ (∀ c ∈ "Socket-IO".toList, isWhiteSpace c = false)
    ∧ (serviceVariations asciiLower "Socket-IO".toList).flatMap sources
        = (searchVariations asciiLower "Socket-IO".toList).flatMap
            (fun v => (generateLogoUrls v).map (fun d => d.url))
    ∧ (downloadLogos asciiLower deadHost "Socket-IO".toList 5 "./logos".toList).2
        = (searchLogos asciiLower (fun _ => .error "Failed to fetch".toList)
            "Socket-IO".toList 8).2
    ∧ serviceVariations asciiLower "Socket-IO".toList
        = ["Socket-IO".toList, "socket-io".toList, "SocketIO".toList]
    ∧ ((serviceVariations asciiLower "Socket-IO".toList).flatMap sources).length = 30 := by
  obtain ⟨h1, _, _, _, _, _, _, h8⟩ := paths_agree_nonempty asciiLower "Socket-IO".toList
    (by decide) (by decide)
  exact ⟨by decide, by decide, h1,
    (h8 (fun _ => .error "Failed to fetch".toList) deadHost "./logos".toList 5 8 rfl
      (by decide) (by decide) (fun _ => rfl) (fun _ => rfl)).1,
    by decide, by decide⟩

/-! ## Injectivity of the catalog -/

theorem append_ne_of_clash (P Q x y : JSString)
    (hc : P.isPrefixOf Q = false ∧ Q.isPrefixOf P = false) : P ++ x ≠ Q ++ y := by
  intro h
  have h1 : P <+: Q ++ y := ⟨x, h⟩
  have h2 : Q <+: Q ++ y := List.prefix_append Q y
  rcases List.prefix_or_prefix_of_prefix h1 h2 with hp | hp
  · have := List.isPrefixOf_iff_prefix.mpr hp
    rw [hc.1] at this
    exact Bool.false_ne_true this
  · have := List.isPrefixOf_iff_prefix.mpr hp
    rw [hc.2] at this
    exact Bool.false_ne_true this

theorem doubled_injective (v w a b : JSString)
    (h : v ++ (a ++ (v ++ b)) = w ++ (a ++ (w ++ b))) : v = w := by
  have hlen := congrArg List.length h
  simp only [List.length_append] at hlen
  exact (List.append_inj h (by omega)).1

set_option maxRecDepth 100000 in
set_option maxHeartbeats 4000000 in
theorem catalog_url_injective (v w : JSString) (d e : LogoData)
    (hd : d ∈ generateLogoUrls v) (he : e ∈ generateLogoUrls w) (h : d.url = e.url) :
    v = w ∧ d = e := by
  simp only [generateLogoUrls, List.mem_cons, List.mem_singleton, List.not_mem_nil,
    or_false] at hd he
  rcases hd with rfl | rfl | rfl | rfl | rfl | rfl | rfl | rfl | rfl | rfl <;>
  rcases he with rfl | rfl | rfl | rfl | rfl | rfl | rfl | rfl | rfl | rfl <;>
  simp only [List.append_assoc] at h <;>
  first
    | exact absurd h (append_ne_of_clash _ _ _ _ (by decide))
    | (have hv : v = w := List.append_cancel_right (List.append_cancel_left h)
       subst hv
       exact ⟨rfl, rfl⟩)
    | (have hv : v = w := doubled_injective v w _ _ (List.append_cancel_left h)
       subst hv
       exact ⟨rfl, rfl⟩)
    | (exfalso
       have hlen := congrArg List.length (List.append_cancel_left h)
       simp [List.length_append] at hlen
       omega)

theorem catalog_labels_nodup (v : JSString) : (generateLogoUrls v).Nodup := by
  apply List.Nodup.of_map (fun d => d.source)
  show List.Nodup [ "Simple Icons (CDN)".toList, "Simple Icons (Raw)".toList,
    "DevIcons Original".toList, "DevIcons Plain".toList, "Iconify Logos".toList,
    "Iconify Simple".toList, "Logos Collection".toList, "Icons8 Color".toList,
    "Icons8 Fluency".toList, "Clearbit".toList ]
  decide

theorem mem_hitsOf_url (fetch : Fetch) (v : JSString)
    (x : JSString × JSString × JSString × JSString) (h : x ∈ hitsOf fetch v) :
    ∃ d ∈ generateLogoUrls v, x.2.1 = d.url := by
  unfold hitsOf at h
  rw [List.mem_map] at h
  obtain ⟨d, hd, rfl⟩ := h
  exact ⟨d, (List.mem_filter.mp hd).1, rfl⟩

theorem hitsOf_urls_pairwise (fetch : Fetch) (v : JSString) :
    (hitsOf fetch v).Pairwise (fun x y => x.2.1 ≠ y.2.1) := by
  unfold hitsOf
  rw [List.pairwise_map]
  have hall : (generateLogoUrls v).Pairwise (fun d e => d.url ≠ e.url) := by
    refine List.Pairwise.imp_of_mem ?_ (catalog_labels_nodup v)
    intro d e hd he hne hurl
    exact hne (catalog_url_injective v v d e hd he hurl).2
  exact List.Pairwise.sublist (List.filter_sublist _) hall

theorem flatMap_hitsOf_urls_nodup (fetch : Fetch) (vs : List JSString) (h : vs.Nodup) :
    ((vs.flatMap (hitsOf fetch)).map (fun x => x.2.1)).Nodup := by
  unfold List.Nodup
  rw [List.pairwise_map, List.pairwise_flatMap]
  refine ⟨fun v _ => hitsOf_urls_pairwise fetch v, ?_⟩
  refine List.Pairwise.imp ?_ h
  intro v w hvw x hx y hy hxy
  obtain ⟨d, hd, hdx⟩ := mem_hitsOf_url fetch v x hx
  obtain ⟨e, he, hey⟩ := mem_hitsOf_url fetch w y hy
  exact hvw (catalog_url_injective v w d e hd he (by rw [← hdx, ← hey, hxy])).1

theorem searchLogos_core (toLowerCase : JSString → JSString) (fetch : Fetch)
    (service : JSString) (maxLogos : Nat) :
    ∃ (hits : List LogoHit) (vs : List JSString),
      (searchLogos toLowerCase fetch service maxLogos).1 = .ok hits
      ∧ vs.Nodup
      ∧ hits.map LogoHit.core = (vs.flatMap (hitsOf fetch)).take maxLogos := by
  by_cases h : trim service = []
  · refine ⟨[], [], ?_, List.nodup_nil, by simp⟩
    unfold searchLogos
    rw [if_pos (Or.inr h)]
  · obtain ⟨hits, hr, hc, _⟩ := searchLoop_spec fetch service maxLogos
      (generateServiceVariations toLowerCase (trim service)) [] [] (Nat.zero_le _) rfl
    rw [List.map_nil, List.nil_append] at hc
    exact ⟨hits, _, searchLogos_of_searchLoop toLowerCase fetch service maxLogos h hits hr,
      nodup_newSet _, hc⟩

/-- C16. For every query, cap and network, `searchLogos` returns normally and no two of
its hits have the same URL.  Over all strings, two catalog entries with the same URL
belong to the same variant and are the same entry: equal URLs at positions `i` and `j` of
the catalogs of `v` and `w` force `v = w` and `i = j`. -/
theorem urls_distinct (toLowerCase : JSString → JSString) (fetch : Fetch)
    (service : JSString) (maxLogos : Nat) :
    (∃ hits, (searchLogos toLowerCase fetch service maxLogos).1 = .ok hits
      ∧ (hits.map (fun x => x.url)).Nodup)
    ∧ (∀ (v w : JSString) (d e : LogoData),
        d ∈ generateLogoUrls v → e ∈ generateLogoUrls w → d.url = e.url →
        v = w ∧ d = e)
    ∧ (∀ (v w : JSString) (i j : Nat) (d e : LogoData),
        (generateLogoUrls v)[i]? = some d → (generateLogoUrls w)[j]? = some e →
        d.url = e.url → v = w ∧ i = j) := by
  refine ⟨?_, fun v w d e hd he h => catalog_url_injective v w d e hd he h, ?_⟩
  · obtain ⟨hits, vs, hr, hvs, hc⟩ := searchLogos_core toLowerCase fetch service maxLogos
    refine ⟨hits, hr, ?_⟩
    have hmap : hits.map (fun x => x.url) = (hits.map LogoHit.core).map (fun x => x.2.1) := by
      rw [List.map_map]
      rfl
    rw [hmap, hc]
    exact List.Nodup.sublist (List.Sublist.map _ (List.take_sublist _ _))
      (flatMap_hitsOf_urls_nodup fetch vs hvs)
  · intro v w i j d e hd he h
    obtain ⟨hv, hde⟩ := catalog_url_injective v w d e (List.getElem?_mem hd)
      (List.getElem?_mem he) h
    subst hv
    subst hde
    have hi : i < (generateLogoUrls v).length := by
      by_contra hge
      rw [List.getElem?_eq_none (by omega)] at hd
      exact Option.noConfusion hd
    exact ⟨rfl, List.getElem?_inj hi (catalog_labels_nodup v) (by rw [hd, he])⟩

/-! ## The hook and `downloadLogo` -/

theorem searchLogos_eq_resultsOf (toLowerCase : JSString → JSString) (fetch : Fetch)
    (q : JSString) :
    (searchLogos toLowerCase fetch q 8).1 = .ok (resultsOf toLowerCase fetch q) := by
  obtain ⟨hits, hr, _⟩ := searchLogos_ok toLowerCase fetch q 8
  unfold resultsOf
  rw [hr]

theorem hookStep_settle (toLowerCase : JSString → JSString) (fetch : Fetch)
    (st : HookState) (i : Nat) (q : JSString) (h : st.inFlight.get? i = some q) :
    hookStep toLowerCase fetch st (.settle i)
      = { st with logos := resultsOf toLowerCase fetch q, loading := false,
                  inFlight := st.inFlight.eraseIdx i } := by
  unfold hookStep
  simp only [h]
  rw [searchLogos_eq_resultsOf]

theorem hookStep_effect (toLowerCase : JSString → JSString) (fetch : Fetch)
    (st : HookState) (q : JSString) (h : trim q ≠ []) :
    hookStep toLowerCase fetch st (.effect q)
      = { st with loading := true, error := none, inFlight := st.inFlight ++ [q] } := by
  simp only [hookStep, if_neg h]

theorem hookRun_effects (toLowerCase : JSString → JSString) (fetch : Fetch)
    (qs : List JSString) (hq : ∀ q ∈ qs, trim q ≠ []) (st : HookState)
    (hl : st.loading = true) (he : st.error = none) :
    hookRun toLowerCase fetch st (qs.map HookEvent.effect)
      = { st with inFlight := st.inFlight ++ qs } := by
  induction qs generalizing st with
  | nil => simp [hookRun]
  | cons q rest ih =>
    have hstep : hookStep toLowerCase fetch st (.effect q)
        = { st with inFlight := st.inFlight ++ [q] } := by
      rw [hookStep_effect toLowerCase fetch st q (hq q (List.mem_cons_self q rest))]
      cases st
      simp only at hl he
      subst hl
      subst he
      rfl
    have := ih (fun x hx => hq x (List.mem_cons_of_mem q hx))
      { st with inFlight := st.inFlight ++ [q] } hl he
    unfold hookRun at this ⊢
    rw [List.map_cons, List.foldl_cons, hstep, this]
    simp

theorem hookRun_settle_in_order (toLowerCase : JSString → JSString) (fetch : Fetch)
    (l : List JSString) (hne : l ≠ []) (st : HookState) (hl : st.inFlight = l) :
    hookRun toLowerCase fetch st (List.replicate l.length (HookEvent.settle 0))
      = { logos := resultsOf toLowerCase fetch (l.getLast hne), loading := false,
          error := st.error, inFlight := [] } := by
  induction l generalizing st with
  | nil => exact absurd rfl hne
  | cons q rest ih =>
    have hstep := hookStep_settle toLowerCase fetch st 0 q (by rw [hl]; rfl)
    unfold hookRun at ih ⊢
    rw [List.length_cons, List.replicate_succ, List.foldl_cons, hstep]
    by_cases hrest : rest = []
    · subst hrest
      simp [hl]
    · rw [ih hrest _ (by simp [hl])]
      simp [List.getLast_cons hrest]

/-- C12, as stated, fails: `react` is issued, then `vue`; the search of `vue` settles
first and the stale search of `react` settles last.  The hook then shows the results of
`react`, which are not those of the most recently issued query. -/
theorem hook_stale_counterexample :
    (hookRun asciiLower allOk hookInit
        [.effect "react".toList, .effect "vue".toList, .settle 1, .settle 0]).logos
      = resultsOf asciiLower allOk "react".toList
    ∧ (hookRun asciiLower allOk hookInit
        [.effect "react".toList, .effect "vue".toList, .settle 1, .settle 0]).inFlight = []
    ∧ resultsOf asciiLower allOk "react".toList ≠ resultsOf asciiLower allOk "vue".toList := by
  decide

/-- C12, amended.  Whenever a search settles, its results are applied to `logos`, whatever
has been issued since; and when the searches of the non-blank queries `qs` settle in the
order they were issued, the final state is that of the last query issued, with no error
and nothing in flight. -/
theorem hook_last_settled_wins (toLowerCase : JSString → JSString) (fetch : Fetch)
    (qs : List JSString) (hne : qs ≠ []) (hq : ∀ q ∈ qs, trim q ≠ []) :
    (∀ (st : HookState) (i : Nat) (q : JSString), st.inFlight.get? i = some q →
        (hookStep toLowerCase fetch st (.settle i)).logos = resultsOf toLowerCase fetch q
        ∧ (hookStep toLowerCase fetch st (.settle i)).loading = false)
    ∧ hookRun toLowerCase fetch hookInit
          (qs.map HookEvent.effect ++ List.replicate qs.length (HookEvent.settle 0))
        = { logos := resultsOf toLowerCase fetch (qs.getLast hne), loading := false,
            error := none, inFlight := [] } := by
  constructor
  · intro st i q h
    rw [hookStep_settle toLowerCase fetch st i q h]
    exact ⟨rfl, rfl⟩
  · obtain ⟨q, rest, rfl⟩ := List.exists_cons_of_ne_nil hne
    have hfirst : hookStep toLowerCase fetch hookInit (.effect q)
        = { logos := [], loading := true, error := none, inFlight := [q] } := by
      rw [hookStep_effect toLowerCase fetch hookInit q (hq q (List.mem_cons_self q rest))]
      rfl
    have hrun : hookRun toLowerCase fetch hookInit ((q :: rest).map HookEvent.effect)
        = { logos := [], loading := true, error := none, inFlight := q :: rest } := by
      have := hookRun_effects toLowerCase fetch rest
        (fun x hx => hq x (List.mem_cons_of_mem q hx))
        { logos := [], loading := true, error := none, inFlight := [q] } rfl rfl
      unfold hookRun at this ⊢
      rw [List.map_cons, List.foldl_cons, hfirst, this]
      rfl
    have hsplit : hookRun toLowerCase fetch hookInit
        ((q :: rest).map HookEvent.effect
          ++ List.replicate (q :: rest).length (HookEvent.settle 0))
        = hookRun toLowerCase fetch
            (hookRun toLowerCase fetch hookInit ((q :: rest).map HookEvent.effect))
            (List.replicate (q :: rest).length (HookEvent.settle 0)) := by
      unfold hookRun
      rw [List.foldl_append]
    rw [hsplit, hrun, hookRun_settle_in_order toLowerCase fetch (q :: rest) hne _ rfl]

/-- C12 amended, for `react` then `vue` settling in that order: the hook ends with the
results of `vue`. -/
theorem hook_last_settled_wins_witness :
    (∀ q ∈ ["react".toList, "vue".toList], trim q ≠ [])
    ∧ hookRun asciiLower allOk hookInit
          [.effect "react".toList, .effect "vue".toList, .settle 0, .settle 0]
        = { logos := resultsOf asciiLower allOk "vue".toList, loading := false,
            error := none, inFlight := [] } :=
  ⟨by decide, (hook_last_settled_wins asciiLower allOk ["react".toList, "vue".toList]
    (by decide) (by decide)).2⟩

/-- C13.  For a response that is not OK with status text `Not Found`, `downloadLogo`
throws the message with the lead-in twice, not `Failed to download logo: Not Found`; for a
rejected `fetch` with message `Failed to fetch` the lead-in comes once. -/
theorem downloadLogo_not_ok_message :
    downloadLogo fetchNotFound "https://logo.clearbit.com/react.com".toList
      = .error "Failed to download logo: Failed to download logo: Not Found".toList
    ∧ downloadLogo fetchNotFound "https://logo.clearbit.com/react.com".toList
      ≠ .error "Failed to download logo: Not Found".toList
    ∧ downloadLogo (fun _ => .error "Failed to fetch".toList)
        "https://logo.clearbit.com/react.com".toList
      = .error "Failed to download logo: Failed to fetch".toList := by
  decide

end QuickLogo
